import Mathlib

/-!
# A verification development for the C hashmap library (`src/hashmap.c`)

The library is a separate-chaining hash table over opaque `void *` keys and values with
caller-supplied callbacks.  The embedding below follows `hashmap.c` function by function.

* A pointer is a natural number, `NULL` is `0`.
* A bucket chain (a `NULL`-terminated singly linked list of `struct hashmap_entry`) is a Lean
  list of nodes in chain order; the `next` field is the list structure.  Every node carries the
  address it was allocated at, so that the pointer returned by `hashmap_set`/`hashmap_get` and
  the pointer handed to `free_data` can be named.
  The list view is exact as long as `alloc_data` answers with memory disjoint from every live
  node, as `malloc` does; the heap itself is not modelled.
* The callbacks `alloc_data`, `free_data`, `free_key`, `free_value` act on the outside world.
  The world is an arbitrary type `W`; an effectful callback is a function on `W`, so every
  invocation of a callback is visible in the resulting world.  `hash_key` and `compare_key`
  are pure functions of the key pointer (`hashmap.h`: "must be a deterministic hash function").
* `hashmap_loop` compares and redirects node pointers, so its chain loop runs on the memory of
  the chain (the cell at each node address) and the chain is read back afterwards.  Memory
  handed to `free_data` stays readable there, as it does under an arena allocator.
* The FNV functions of `fnv1_32.c` and `fnv1_64.c` work on the list of bytes that `data`
  points to, with the arithmetic of `uint32_t` and `uint64_t` written as `% 2 ^ 32` and
  `% 2 ^ 64`.
-/

namespace Hashmap

/-- A C pointer value (`void *`, `struct hashmap_entry *`, ...). -/
abbrev Ptr := Nat

/-- The null pointer. -/
def NULL : Ptr := 0

/-- One more than `SIZE_MAX` on the LP64 targets the library is built for. -/
def SIZE_MOD : Nat := 2 ^ 64

/-- The value of `sizeof(struct hashmap)` on LP64: eight pointer-sized fields. -/
def sizeof_hashmap : Nat := 64

/-- The value of `sizeof(struct hashmap_entry)` on LP64: three pointers. -/
def sizeof_hashmap_entry : Nat := 24

/-- The value of `sizeof(struct hashmap_entry *)` on LP64. -/
def sizeof_entry_ptr : Nat := 8

/-- A node of a bucket chain, `struct hashmap_entry` of `hashmap.h`.  The fields `key` and
`value` are those of the C struct; `addr` is the address of the node itself and `next` is the
tail of the list the node sits in. -/
structure hashmap_entry where
  addr : Ptr
  key : Ptr
  value : Ptr
deriving DecidableEq, Repr

/-- The map record, `struct hashmap` of `hashmap.h`.  `addr` is the address of the record,
`buckets_addr` the value of the field `buckets` (the address of the bucket array) and
`buckets` the contents of that array: one chain per bucket.  The four callbacks that
`hashmap.h` marks "Must not be NULL" are stored as functions, the two optional destructors as
options (`none` is a `NULL` function pointer). -/
structure hashmap (W : Type) where
  addr : Ptr
  buckets_addr : Ptr
  buckets : List (List hashmap_entry)
  size : Nat
  hash_key : Ptr → Nat
  compare_key : Ptr → Ptr → Bool
  alloc_data : Nat → W → Ptr × W
  free_data : Ptr → W → W
  free_key : Option (Ptr → W → W)
  free_value : Option (Ptr → W → W)

variable {W : Type}

/-- The chain whose head is `map->buckets[i]`. -/
def bucket_at (map : hashmap W) (i : Nat) : List hashmap_entry :=
  map.buckets.getD i []

/-- The assignment `map->buckets[i] = chain`. -/
def set_bucket (map : hashmap W) (i : Nat) (chain : List hashmap_entry) : hashmap W :=
  { map with buckets := map.buckets.set i chain }

/-- What a call of `hashmap_create` comes to: either the function returns, a map or `NULL`
(`none`), or its initialisation loop stores a bucket head past the end of the block it got
from the allocator, which is undefined behaviour.  Both carry the world at that point. -/
inductive create_result (W : Type) where
  | returned (map : Option (hashmap W)) (w : W)
  | out_of_bounds (w : W)

/-- The function `hashmap_create` (hashmap.c:3-39).  The four required callbacks and the
bucket count are validated first; then the record and the bucket array are allocated, the
record being released again when the second allocation fails.

The bucket array is requested with `total_size = size * sizeof(struct hashmap_entry *)`
computed in `size_t`, so modulo `2 ^ 64`; the loop of hashmap.c:27-29 then stores `size`
heads, `size * sizeof(struct hashmap_entry *)` bytes in all.  When the product has wrapped
the block is shorter than that and the loop leaves it. -/
def hashmap_create (size : Nat)
    (hash_key : Option (Ptr → Nat))
    (compare_key : Option (Ptr → Ptr → Bool))
    (alloc_data : Option (Nat → W → Ptr × W))
    (free_data : Option (Ptr → W → W))
    (free_key : Option (Ptr → W → W))
    (free_value : Option (Ptr → W → W))
    (w : W) : create_result W :=
  match hash_key with
  | none => create_result.returned none w
  | some h =>
  match compare_key with
  | none => create_result.returned none w
  | some c =>
  match alloc_data with
  | none => create_result.returned none w
  | some a =>
  match free_data with
  | none => create_result.returned none w
  | some f =>
  if size ≤ 0 then create_result.returned none w else
  let r1 := a sizeof_hashmap w
  if r1.1 = NULL then create_result.returned none r1.2 else
  let total_size := (size * sizeof_entry_ptr) % SIZE_MOD
  let r2 := a total_size r1.2
  if r2.1 = NULL then create_result.returned none (f r1.1 r2.2) else
  if total_size < size * sizeof_entry_ptr then create_result.out_of_bounds r2.2 else
  create_result.returned
    (some
      { addr := r1.1
        buckets_addr := r2.1
        buckets := List.replicate size []
        size := size
        hash_key := h
        compare_key := c
        alloc_data := a
        free_data := f
        free_key := free_key
        free_value := free_value })
    r2.2

/-- The function `internal_free_entry_kv` (hashmap.c:41-48): a `NULL` entry is left alone;
otherwise a non-null key is passed to `free_key` and a non-null value to `free_value`, when
the callback is present, and both fields are set to `NULL`. -/
def internal_free_entry_kv (entry : Option hashmap_entry) (map : hashmap W) (w : W) :
    Option hashmap_entry × W :=
  match entry with
  | none => (none, w)
  | some e =>
    let w1 :=
      match map.free_key with
      | some fk => if e.key ≠ NULL then fk e.key w else w
      | none => w
    let w2 :=
      match map.free_value with
      | some fv => if e.value ≠ NULL then fv e.value w1 else w1
      | none => w1
    (some { addr := e.addr, key := NULL, value := NULL }, w2)

/-- The function `internal_free_entry` (hashmap.c:50-55): key and value are released by
`internal_free_entry_kv`, then the node goes to `free_data`. -/
def internal_free_entry (entry : Option hashmap_entry) (map : hashmap W) (w : W) : W :=
  match entry with
  | none => w
  | some e => map.free_data e.addr (internal_free_entry_kv (some e) map w).2

/-- The inner `while (entry)` loop of `hashmap_clear` (hashmap.c:61-65): every node of the
chain, from head to tail, goes through `internal_free_entry`. -/
def clear_chain (map : hashmap W) : List hashmap_entry → W → W
  | [], w => w
  | e :: rest, w => clear_chain map rest (internal_free_entry (some e) map w)

/-- One round of the outer loop of `hashmap_clear` (hashmap.c:60-66) for the index `i`. -/
def clear_bucket (s : hashmap W × W) (i : Nat) : hashmap W × W :=
  (set_bucket s.1 i [], clear_chain s.1 (bucket_at s.1 i) s.2)

/-- The function `hashmap_clear` (hashmap.c:57-68): the rounds for `i = 0, ..., size - 1`. -/
def hashmap_clear (map : hashmap W) (w : W) : hashmap W × W :=
  (List.range map.size).foldl clear_bucket (map, w)

/-- The function `internal_get_bucket_index` (hashmap.c:79-81). -/
def internal_get_bucket_index (map : hashmap W) (key : Ptr) : Nat :=
  map.hash_key key % map.size

/-- The `while (entry)` loop of `hashmap_set` (hashmap.c:87-98) on a chain.  At the first
node whose key compares equal to `key` the old key and value are released and the node is
overwritten in place; the result is the new chain, the node and the new world.  The result
is `none` when the loop leaves the chain without a match. -/
def set_scan (map : hashmap W) (key value : Ptr) :
    List hashmap_entry → W → Option (List hashmap_entry × hashmap_entry × W)
  | [], _ => none
  | e :: rest, w =>
    if map.compare_key e.key key then
      let w1 := (internal_free_entry_kv (some e) map w).2
      let e1 : hashmap_entry := { addr := e.addr, key := key, value := value }
      some (e1 :: rest, e1, w1)
    else
      match set_scan map key value rest w with
      | none => none
      | some (chain, e1, w1) => some (e :: chain, e1, w1)

/-- The function `hashmap_set` (hashmap.c:83-115).  The result is the returned entry pointer
(`none` for `NULL`), the map afterwards and the world afterwards.  When the scan finds no
match a node is requested from `alloc_data`; a `NULL` answer is returned as failure, any other
becomes the new tail of the chain (the head of an empty chain). -/
def hashmap_set (map : hashmap W) (key value : Ptr) (w : W) :
    Option hashmap_entry × hashmap W × W :=
  let bucket_index := internal_get_bucket_index map key
  match set_scan map key value (bucket_at map bucket_index) w with
  | some (chain, e1, w1) => (some e1, set_bucket map bucket_index chain, w1)
  | none =>
    let r := map.alloc_data sizeof_hashmap_entry w
    if r.1 = NULL then (none, map, r.2) else
    let new_entry : hashmap_entry := { addr := r.1, key := key, value := value }
    (some new_entry, set_bucket map bucket_index (bucket_at map bucket_index ++ [new_entry]), r.2)

/-- The `for` loop of `hashmap_remove` (hashmap.c:122-135) on a chain: the first node whose
key compares equal to `key` is unlinked and goes through `internal_free_entry`.  The result is
`none` when no node matches. -/
def remove_scan (map : hashmap W) (key : Ptr) :
    List hashmap_entry → W → Option (List hashmap_entry × W)
  | [], _ => none
  | e :: rest, w =>
    if map.compare_key e.key key then
      some (rest, internal_free_entry (some e) map w)
    else
      match remove_scan map key rest w with
      | none => none
      | some (chain, w1) => some (e :: chain, w1)

/-- The function `hashmap_remove` (hashmap.c:117-137): the returned flag, the map and the
world afterwards. -/
def hashmap_remove (map : hashmap W) (key : Ptr) (w : W) : Bool × hashmap W × W :=
  let bucket_index := internal_get_bucket_index map key
  match remove_scan map key (bucket_at map bucket_index) w with
  | some (chain, w1) => (true, set_bucket map bucket_index chain, w1)
  | none => (false, map, w)

/-- The function `hashmap_get` (hashmap.c:139-146): the first node of the bucket of `key`
whose key compares equal to `key`, `none` for `NULL`.  No callback that acts on the world is
called and the map is not written, so neither is returned. -/
def hashmap_get (map : hashmap W) (key : Ptr) : Option hashmap_entry :=
  (bucket_at map (internal_get_bucket_index map key)).find? (fun e => map.compare_key e.key key)

/-- The function `hashmap_get_value` (hashmap.c:148-152). -/
def hashmap_get_value (map : hashmap W) (key : Ptr) : Ptr :=
  match hashmap_get map key with
  | none => NULL
  | some entry => entry.value

/-! ## A recording world, used to run the model on concrete inputs -/

/-- A call of a callback that acts on the world. -/
inductive Event where
  | alloc (size : Nat) (result : Ptr)
  | free_data (p : Ptr)
  | free_key (p : Ptr)
  | free_value (p : Ptr)
deriving DecidableEq, Repr

/-- A world that records every call and answers allocation requests from a script; an
exhausted script answers `NULL`. -/
structure Recorder where
  trace : List Event
  script : List Ptr
deriving DecidableEq, Repr

/-- The scripted allocator. -/
def rec_alloc (size : Nat) (w : Recorder) : Ptr × Recorder :=
  match w.script with
  | [] => (NULL, { trace := w.trace ++ [Event.alloc size NULL], script := [] })
  | p :: rest => (p, { trace := w.trace ++ [Event.alloc size p], script := rest })

/-- The recording `free_data`. -/
def rec_free_data (p : Ptr) (w : Recorder) : Recorder :=
  { w with trace := w.trace ++ [Event.free_data p] }

/-- The recording `free_key`. -/
def rec_free_key (p : Ptr) (w : Recorder) : Recorder :=
  { w with trace := w.trace ++ [Event.free_key p] }

/-- The recording `free_value`. -/
def rec_free_value (p : Ptr) (w : Recorder) : Recorder :=
  { w with trace := w.trace ++ [Event.free_value p] }

/-- A map with `n` buckets and the given chains over the recording world: keys hash to
themselves and are compared by pointer value. -/
def rec_map (n : Nat) (chains : List (List hashmap_entry)) : hashmap Recorder :=
  { addr := 1000
    buckets_addr := 2000
    buckets := chains
    size := n
    hash_key := fun p => p
    compare_key := fun a b => decide (a = b)
    alloc_data := rec_alloc
    free_data := rec_free_data
    free_key := some rec_free_key
    free_value := some rec_free_value }

/-- An allocator on the recording world that never fails: the answer is one more than the
number of calls recorded so far, so no two answers coincide. -/
def rec_bump (size : Nat) (w : Recorder) : Ptr × Recorder :=
  (w.trace.length + 1,
   { w with trace := w.trace ++ [Event.alloc size (w.trace.length + 1)] })

/-- A hash for the examples: the pointer value. -/
def demo_hash (p : Ptr) : Nat := p

/-- An equality for the examples: equality of pointer values. -/
def demo_compare (a b : Ptr) : Bool := decide (a = b)

/-- A map with four buckets; the keys 5 and 9 collide in bucket 1, the key 2 is alone in
bucket 2. -/
def demo_map : hashmap Recorder :=
  rec_map 4 [[], [⟨30, 5, 50⟩, ⟨40, 9, 90⟩], [⟨50, 2, 20⟩], []]

/-- A world whose allocator has two answers left. -/
def demo_world : Recorder := { trace := [], script := [60, 70] }

/-- A world whose allocator is exhausted. -/
def demo_world_oom : Recorder := { trace := [], script := [] }

/-- The map `hashmap_create` returns for four buckets from the empty recording world with
the never-failing allocator: the record at 1, the bucket array at 2. -/
def demo_fresh : hashmap Recorder :=
  { addr := 1
    buckets_addr := 2
    buckets := [[], [], [], []]
    size := 4
    hash_key := demo_hash
    compare_key := demo_compare
    alloc_data := rec_bump
    free_data := rec_free_data
    free_key := some rec_free_key
    free_value := some rec_free_value }

/-- The world after that creation. -/
def demo_fresh_world : Recorder :=
  { trace := [Event.alloc 64 1, Event.alloc 32 2], script := [] }

/-- A sequence of `set` calls that sets the key 5 twice. -/
def demo_sets : List (Ptr × Ptr) := [(5, 50), (9, 90), (5, 55), (2, 20)]

/-! ## Properties of a map -/

/-- A well-formed map: the bucket count is positive and the bucket array has that many
slots. -/
def well_formed (map : hashmap W) : Prop :=
  0 < map.size ∧ map.buckets.length = map.size

/-- The equality callback is reflexive. -/
def compare_refl (map : hashmap W) : Prop :=
  ∀ a, map.compare_key a a = true

/-- The equality callback is symmetric. -/
def compare_symm (map : hashmap W) : Prop :=
  ∀ a b, map.compare_key a b = true → map.compare_key b a = true

/-- The equality callback is transitive. -/
def compare_trans (map : hashmap W) : Prop :=
  ∀ a b c, map.compare_key a b = true → map.compare_key b c = true →
    map.compare_key a c = true

/-- Equal keys hash identically. -/
def hash_consistent (map : hashmap W) : Prop :=
  ∀ a b, map.compare_key a b = true → map.hash_key a = map.hash_key b

/-- Bucket placement: every entry reachable from bucket `i` hashes, modulo the bucket count,
to `i`. -/
def bucket_placement (map : hashmap W) : Prop :=
  ∀ i, ∀ e ∈ bucket_at map i, map.hash_key e.key % map.size = i

/-- No two entries of a chain have keys that compare equal. -/
def chain_unique (map : hashmap W) (chain : List hashmap_entry) : Prop :=
  chain.Pairwise (fun a b => map.compare_key a.key b.key = false)

/-- Key uniqueness: no bucket chain contains two entries with equal keys. -/
def keys_unique (map : hashmap W) : Prop :=
  ∀ i, chain_unique map (bucket_at map i)

/-- The equality callback is an equivalence relation under which equal keys hash
identically (the collaborator contract of the hash/equality strategy). -/
def callbacks_lawful (map : hashmap W) : Prop :=
  compare_refl map ∧ compare_symm map ∧ compare_trans map ∧ hash_consistent map

/-- The allocator answers every request with a non-null pointer. -/
def alloc_succeeds (map : hashmap W) : Prop :=
  ∀ n w, (map.alloc_data n w).1 ≠ NULL

/-- A sequence of `hashmap_set` calls, one per (key, value) pair, in list order. -/
def set_all (map : hashmap W) : List (Ptr × Ptr) → W → hashmap W × W
  | [], w => (map, w)
  | kv :: rest, w =>
    set_all (hashmap_set map kv.1 kv.2 w).2.1 rest (hashmap_set map kv.1 kv.2 w).2.2

/-- The most recent pair of a sequence of `set` calls whose key compares equal to `k`. -/
def last_set (compare_key : Ptr → Ptr → Bool) (k : Ptr) (sets : List (Ptr × Ptr)) :
    Option (Ptr × Ptr) :=
  sets.reverse.find? (fun kv => compare_key kv.1 k)

/-- The key and the value an entry holds. -/
def entry_kv (e : hashmap_entry) : Ptr × Ptr := (e.key, e.value)

/-- The world after the nodes of the given chains went through `internal_free_entry`, chain
by chain and within a chain from head to tail. -/
def clear_chains (map : hashmap W) (chains : List (List hashmap_entry)) (w : W) : W :=
  chains.foldl (fun w1 chain => clear_chain map chain w1) w

/-- All buckets of the map are empty. -/
def all_empty (map : hashmap W) : Prop :=
  ∀ chain ∈ map.buckets, chain = []

/-- Two map records hold the same state: the same bucket count, the same chains and the same
six callbacks.  The addresses of the record and of the bucket array are not compared. -/
def same_state (m1 m2 : hashmap W) : Prop :=
  m1.buckets = m2.buckets ∧ m1.size = m2.size ∧ m1.hash_key = m2.hash_key ∧
    m1.compare_key = m2.compare_key ∧ m1.alloc_data = m2.alloc_data ∧
    m1.free_data = m2.free_data ∧ m1.free_key = m2.free_key ∧ m1.free_value = m2.free_value

/-- A call of one of the key operations. -/
inductive Op where
  | set (key value : Ptr)
  | get (key : Ptr)
  | get_value (key : Ptr)
  | remove (key : Ptr)
deriving DecidableEq, Repr

/-- What such a call returns. -/
inductive OpResult where
  | entry (e : Option hashmap_entry)
  | value (p : Ptr)
  | flag (b : Bool)
deriving DecidableEq, Repr

/-- One call on a map: what it returns, the map and the world afterwards. -/
def run_op (map : hashmap W) (op : Op) (w : W) : OpResult × hashmap W × W :=
  match op with
  | Op.set k v => (OpResult.entry (hashmap_set map k v w).1, (hashmap_set map k v w).2)
  | Op.get k => (OpResult.entry (hashmap_get map k), map, w)
  | Op.get_value k => (OpResult.value (hashmap_get_value map k), map, w)
  | Op.remove k => (OpResult.flag (hashmap_remove map k w).1, (hashmap_remove map k w).2)

/-- A sequence of calls on a map: the results in order, the map and the world afterwards. -/
def run_ops (map : hashmap W) : List Op → W → List OpResult × hashmap W × W
  | [], w => ([], map, w)
  | op :: rest, w =>
    let r := run_op map op w
    let rs := run_ops r.2.1 rest r.2.2
    (r.1 :: rs.1, rs.2)

/-! ## Guarded iteration

`hashmap_loop` compares and rewrites node pointers (`head == entry`, `prev->next = ...`), so
its chain loop is run on the memory of the chain: the cell stored at each node address. -/

/-- The fields of a node as they lie in memory: `key`, `value` and `next` of
`struct hashmap_entry`. -/
structure entry_cell where
  key : Ptr
  value : Ptr
  next : Ptr
deriving DecidableEq, Repr

/-- The memory the nodes of a chain lie in: the cell at each address. -/
abbrev node_heap := Ptr → entry_cell

/-- The pointer to the first node of a chain, `NULL` for the empty chain. -/
def head_addr : List hashmap_entry → Ptr
  | [] => NULL
  | e :: _ => e.addr

/-- The memory of a chain: every node at its address, its `next` field pointing to the node
after it, the last one to `NULL`. -/
def chain_to_heap : List hashmap_entry → node_heap
  | [] => fun _ => { key := NULL, value := NULL, next := NULL }
  | e :: rest => fun p =>
    if p = e.addr then { key := e.key, value := e.value, next := head_addr rest }
    else chain_to_heap rest p

/-- The chain that starts at the pointer `p`: the nodes met by following `next` until `NULL`,
at most `fuel` of them. -/
def heap_to_chain (heap : node_heap) : Nat → Ptr → List hashmap_entry
  | 0, _ => []
  | fuel + 1, p =>
    if p = NULL then []
    else { addr := p, key := (heap p).key, value := (heap p).value } ::
      heap_to_chain heap fuel (heap p).next

/-- The variables of the chain loop of `hashmap_loop`: the memory of the nodes, the bucket
head `map->buckets[i]`, the locals `entry` and `prev`, and the world. -/
structure loop_state (W : Type) where
  heap : node_heap
  bucket : Ptr
  entry : Ptr
  prev : Ptr
  world : W

/-- The callback of `hashmap_loop`: it is given the key and the value, acts on the world,
and leaves the flags `(proceed, remove)`, which start out as `(true, false)`. -/
abbrev loop_callback (W : Type) := Ptr → Ptr → W → (Bool × Bool) × W

/-- The call `internal_free_entry(p, map)` for a pointer `p` into the memory of the chain:
nothing for `NULL`; otherwise key and value of the node at `p` go to the destructors and are
set to `NULL`, and `p` goes to `free_data`. -/
def free_entry_at (map : hashmap W) (heap : node_heap) (p : Ptr) (w : W) : node_heap × W :=
  if p = NULL then (heap, w)
  else
    (fun q => if q = p then { key := NULL, value := NULL, next := (heap p).next } else heap q,
     internal_free_entry
       (some { addr := p, key := (heap p).key, value := (heap p).value }) map w)

/-- The `while (entry)` loop of `hashmap_loop` (hashmap.c:159-178) for the bucket whose head
was read into `head`.  The result is the state at the end and whether the loop was left with
`proceed` still set; `none` when `fuel` rounds did not reach the end of the chain.

In the `remove` branch the bucket head or `prev->next` is redirected to `entry->next`, then
`entry` is advanced, and only then `internal_free_entry(entry, map)` is called, as in the
source. -/
def loop_chain (map : hashmap W) (callback : loop_callback W) (head : Ptr) :
    Nat → loop_state W → Option (loop_state W × Bool)
  | 0, _ => none
  | fuel + 1, s =>
    if s.entry = NULL then some (s, true)
    else
      let r := callback (s.heap s.entry).key (s.heap s.entry).value s.world
      let s1 : loop_state W :=
        if r.1.2 then
          let s2 : loop_state W :=
            if head = s.entry then
              { s with bucket := (s.heap s.entry).next, world := r.2 }
            else
              { s with
                heap := fun q =>
                  if q = s.prev then { s.heap q with next := (s.heap s.entry).next }
                  else s.heap q
                world := r.2 }
          let f := free_entry_at map s2.heap (s2.heap s.entry).next s2.world
          { s2 with heap := f.1, entry := (s2.heap s.entry).next, world := f.2 }
        else
          { s with prev := s.entry, entry := (s.heap s.entry).next, world := r.2 }
      if r.1.1 then loop_chain map callback head fuel s1 else some (s1, false)

/-- One round of the outer loop of `hashmap_loop` (hashmap.c:156-179) for the bucket `i`: the
map afterwards, whether to go on with the next bucket, and the world. -/
def loop_bucket (map : hashmap W) (callback : loop_callback W) (i : Nat) (w : W) :
    Option (hashmap W × Bool × W) :=
  match loop_chain map callback (head_addr (bucket_at map i)) ((bucket_at map i).length + 1)
      { heap := chain_to_heap (bucket_at map i)
        bucket := head_addr (bucket_at map i)
        entry := head_addr (bucket_at map i)
        prev := head_addr (bucket_at map i)
        world := w } with
  | none => none
  | some (s, proceed) =>
    some (set_bucket map i (heap_to_chain s.heap (bucket_at map i).length s.bucket), proceed,
      s.world)

/-- The rounds of the outer loop for the given bucket indices; a round that ends with
`proceed` cleared ends the function. -/
def loop_buckets (callback : loop_callback W) : List Nat → hashmap W → W → Option (hashmap W × W)
  | [], map, w => some (map, w)
  | i :: rest, map, w =>
    match loop_bucket map callback i w with
    | none => none
    | some (map1, proceed, w1) =>
      if proceed then loop_buckets callback rest map1 w1 else some (map1, w1)

/-- The function `hashmap_loop` (hashmap.c:154-180): the map and the world afterwards. -/
def hashmap_loop (map : hashmap W) (callback : loop_callback W) (w : W) : Option (hashmap W × W) :=
  loop_buckets callback (List.range map.size) map w

/-- The entries of a map in iteration order: bucket 0, 1, ... and within a bucket from the
head of the chain to its tail. -/
def live_entries (map : hashmap W) : List hashmap_entry :=
  map.buckets.flatten

/-- An uninterrupted sequence of callback invocations, one per entry of the list, in order:
the world afterwards. -/
def visit_all (callback : loop_callback W) (entries : List hashmap_entry) (w : W) : W :=
  entries.foldl (fun w1 e => (callback e.key e.value w1).2) w

/-- A sequence of callback invocations on the entries of the list, in order, that ends after
the first invocation that clears `proceed`: the world afterwards and whether `proceed` was
still set at the end. -/
def visit_until_stop (callback : loop_callback W) : List hashmap_entry → W → W × Bool
  | [], w => (w, true)
  | e :: rest, w =>
    if (callback e.key e.value w).1.1 then visit_until_stop callback rest (callback e.key e.value w).2
    else ((callback e.key e.value w).2, false)

/-- The nodes of every chain lie at pairwise distinct addresses other than `NULL`. -/
def nodes_distinct (map : hashmap W) : Prop :=
  ∀ chain ∈ map.buckets, (chain.map (fun e => e.addr)).Nodup ∧ ∀ e ∈ chain, e.addr ≠ NULL

/-- A call recorded during an iteration. -/
inductive LoopEvent where
  | visit (key value : Ptr)
  | free_key (p : Ptr)
  | free_value (p : Ptr)
  | free_data (p : Ptr)
deriving DecidableEq, Repr

/-- A map over the world that records the calls made during an iteration. -/
def loop_map (n : Nat) (chains : List (List hashmap_entry)) : hashmap (List LoopEvent) :=
  { addr := 1000
    buckets_addr := 2000
    buckets := chains
    size := n
    hash_key := fun p => p
    compare_key := fun a b => decide (a = b)
    alloc_data := fun _ w => (NULL, w)
    free_data := fun p w => w ++ [LoopEvent.free_data p]
    free_key := some (fun p w => w ++ [LoopEvent.free_key p])
    free_value := some (fun p w => w ++ [LoopEvent.free_value p]) }

/-- The number of callback invocations recorded. -/
def visit_count (w : List LoopEvent) : Nat :=
  (w.filter (fun ev => match ev with | LoopEvent.visit _ _ => true | _ => false)).length

/-- A recording callback that sets `remove` where `p` holds and clears `proceed` on the
invocation number `n` (never for `n = 0`). -/
def recording_callback (p : Ptr → Ptr → Bool) (n : Nat) : loop_callback (List LoopEvent) :=
  fun k v w => ((decide (visit_count w + 1 ≠ n), p k v), w ++ [LoopEvent.visit k v])

/-- A recording callback that sets `remove` and clears `proceed` on the invocation number
`n`, and signals nothing on the others. -/
def remove_and_stop_callback (n : Nat) : loop_callback (List LoopEvent) :=
  fun k v w =>
    ((decide (visit_count w + 1 ≠ n), decide (visit_count w + 1 = n)),
     w ++ [LoopEvent.visit k v])

/-- The example map over the world that records iterations: the keys 5 and 9 share bucket 1,
the key 2 is alone in bucket 2. -/
def demo_loop_map : hashmap (List LoopEvent) :=
  loop_map 4 [[], [⟨30, 5, 50⟩, ⟨40, 9, 90⟩], [⟨50, 2, 20⟩], []]

/-- The memory holds the chain `chain` from the pointer `p` on: `p` points to its first node,
every node holds its key and value, and its `next` field points to the node after it. -/
def heap_holds (heap : node_heap) : List hashmap_entry → Ptr → Prop
  | [], p => p = NULL
  | e :: rest, p =>
    p = e.addr ∧ p ≠ NULL ∧ (heap p).key = e.key ∧ (heap p).value = e.value ∧
      heap_holds heap rest (heap p).next

/-! ## Lookup, as the spec words it and with its callback calls written down -/

/-- The lookup in the words of the spec: "linearly scans the chain using `equal`, returns the
matching entry or signals absence". -/
def spec_first_match (equal : Ptr → Ptr → Bool) (key : Ptr) :
    List hashmap_entry → Option hashmap_entry
  | [] => none
  | e :: rest => if equal e.key key then some e else spec_first_match equal key rest

/-- A call of one of the two callbacks without effect on the world. -/
inductive Call where
  | hash_key (key : Ptr)
  | compare_key (key1 key2 : Ptr)
deriving DecidableEq, Repr

/-- Whether a call is a call of `hash_key`. -/
def Call.is_hash_key : Call → Bool
  | Call.hash_key _ => true
  | Call.compare_key _ _ => false

/-- The `for` loop of `hashmap_get` (hashmap.c:142-144) with every call of `compare_key`
appended to the log. -/
def get_scan_traced (map : hashmap W) (key : Ptr) :
    List hashmap_entry → List Call → Option hashmap_entry × List Call
  | [], log => (none, log)
  | e :: rest, log =>
    if map.compare_key e.key key then (some e, log ++ [Call.compare_key e.key key])
    else get_scan_traced map key rest (log ++ [Call.compare_key e.key key])

/-- The function `hashmap_get` (hashmap.c:139-146) in state-passing form: the returned
entry, the map and the world afterwards, and the log of the calls of `hash_key` (made by
`internal_get_bucket_index`) and `compare_key`.  The function has no statement that writes
the map and no call of `alloc_data`, `free_data`, `free_key` or `free_value`. -/
def hashmap_get_traced (map : hashmap W) (key : Ptr) (w : W) :
    Option hashmap_entry × hashmap W × W × List Call :=
  let bucket_index := map.hash_key key % map.size
  let r := get_scan_traced map key (bucket_at map bucket_index) [Call.hash_key key]
  (r.1, map, w, r.2)

/-- The function `hashmap_get_value` (hashmap.c:148-152) in state-passing form. -/
def hashmap_get_value_traced (map : hashmap W) (key : Ptr) (w : W) :
    Ptr × hashmap W × W × List Call :=
  let r := hashmap_get_traced map key w
  match r.1 with
  | none => (NULL, r.2)
  | some entry => (entry.value, r.2)

/-- The nodes a lookup compares: the chain up to and including the first match. -/
def scanned_entries (map : hashmap W) (key : Ptr) : List hashmap_entry → List hashmap_entry
  | [] => []
  | e :: rest => if map.compare_key e.key key then [e] else e :: scanned_entries map key rest

/-- No entry of one bucket has a key equal to the key of an entry of another bucket. -/
def cross_unique (map : hashmap W) : Prop :=
  ∀ i j, i ≠ j → ∀ e1 ∈ bucket_at map i, ∀ e2 ∈ bucket_at map j,
    map.compare_key e1.key e2.key = false

/-- The invariants of a map created with `n` buckets: (1) the bucket count is positive, is
`n`, and the bucket array has that many slots; (2) every entry sits in the bucket its key
hashes to; (3) no two distinct entries have equal keys, neither within a chain nor across
buckets. -/
def map_invariant (map : hashmap W) (n : Nat) : Prop :=
  (0 < map.size ∧ map.size = n ∧ map.buckets.length = map.size) ∧
    bucket_placement map ∧ (keys_unique map ∧ cross_unique map)

/-! ## Release of keys, values and the map -/

/-- What `internal_free_entry_kv` does with a key: it goes to `free_key` when that callback
is present and the key is not `NULL`, and nothing is called otherwise. -/
def release_key (map : hashmap W) (key : Ptr) (w : W) : W :=
  match map.free_key with
  | some fk => if key ≠ NULL then fk key w else w
  | none => w

/-- What `internal_free_entry_kv` does with a value: it goes to `free_value` when that
callback is present and the value is not `NULL`, and nothing is called otherwise. -/
def release_value (map : hashmap W) (value : Ptr) (w : W) : W :=
  match map.free_value with
  | some fv => if value ≠ NULL then fv value w else w
  | none => w

/-- A map with an entry whose value is `NULL`. -/
def null_value_map : hashmap Recorder :=
  rec_map 4 [[], [⟨30, 5, 0⟩], [], []]

/-- The function `hashmap_free` (hashmap.c:70-77): the world after `hashmap_clear`, then
`free_data` on the bucket array, then `free_data` on the record. -/
def hashmap_free (map : hashmap W) (w : W) : W :=
  let c := hashmap_clear map w
  c.1.free_data c.1.addr (c.1.free_data c.1.buckets_addr c.2)

/-- The free callbacks due for one entry, in order: `free_key` on a non-null key,
`free_value` on a non-null value, `free_data` on the node. -/
def entry_free_events (e : hashmap_entry) : List Event :=
  (if e.key ≠ NULL then [Event.free_key e.key] else []) ++
    (if e.value ≠ NULL then [Event.free_value e.value] else []) ++ [Event.free_data e.addr]

/-- The free callbacks due for a whole map, in order: those of every live entry in
bucket-then-chain order, then `free_data` on the bucket array, then `free_data` on the
record. -/
def map_free_events (map : hashmap W) : List Event :=
  (live_entries map).flatMap entry_free_events ++
    [Event.free_data map.buckets_addr, Event.free_data map.addr]

/-- The pointer a recorded call released, if it was a call of a free callback. -/
def freed_pointer : Event → Option Ptr
  | Event.alloc _ _ => none
  | Event.free_data p => some p
  | Event.free_key p => some p
  | Event.free_value p => some p

/-- The pointers a map owns: per live entry its non-null key, its non-null value and its
node, then the bucket array and the record. -/
def owned_pointers (map : hashmap W) : List Ptr :=
  (live_entries map).flatMap
      (fun e => (if e.key ≠ NULL then [e.key] else []) ++
        (if e.value ≠ NULL then [e.value] else []) ++ [e.addr]) ++
    [map.buckets_addr, map.addr]

/-- The position of the first call in a trace that satisfies `p`. -/
def first_index (p : Event → Bool) (trace : List Event) : Nat :=
  (trace.takeWhile (fun ev => !p ev)).length

/-! ## The FNV hash functions (`fnv1_32.c`, `fnv1_64.c`)

The memory `data` points to is the list of the bytes stored from that address on.  A read of
a `uint8_t` gives a value below 256, and an assignment to the `uint32_t` or `uint64_t`
variable `hash` reduces modulo `2 ^ 32` or `2 ^ 64`. -/

/-- The constant `offset` of `fnv1_32.c`. -/
def offset_32 : Nat := 0x811c9dc5

/-- The constant `prime` of `fnv1_32.c`. -/
def prime_32 : Nat := 0x01000193

/-- The constant `offset` of `fnv1_64.c`. -/
def offset_64 : Nat := 0xcbf29ce484222325

/-- The constant `prime` of `fnv1_64.c`. -/
def prime_64 : Nat := 0x00000100000001b3

/-- The read `((uint8_t *) data)[i]`; memory past the end of the list reads as 0. -/
def byte_at (data : List Nat) (i : Nat) : Nat :=
  data.getD i 0 % 256

/-- The loop body of the FNV-1 functions, `hash *= prime; hash ^= byte;`, for a `hash`
variable of `bits` bits. -/
def fnv1_round (prime bits : Nat) (hash byte : Nat) : Nat :=
  (((hash * prime) % 2 ^ bits) ^^^ byte) % 2 ^ bits

/-- The loop body of the FNV-1a functions, `hash ^= byte; hash *= prime;`, for a `hash`
variable of `bits` bits. -/
def fnv1a_round (prime bits : Nat) (hash byte : Nat) : Nat :=
  (((hash ^^^ byte) % 2 ^ bits) * prime) % 2 ^ bits

/-- The loop `for (size_t i = 0; i < len; i++)` of the `_n` functions around a loop body. -/
def hash_n_loop (round : Nat → Nat → Nat) (data : List Nat) (len : Nat) (hash : Nat) : Nat :=
  (List.range len).foldl (fun h i => round h (byte_at data i)) hash

/-- The loop `for (const uint8_t *i = data; *i; i++)` of the string functions around a loop
body: it ends at the first zero byte. -/
def hash_str_loop (round : Nat → Nat → Nat) : List Nat → Nat → Nat
  | [], hash => hash
  | b :: rest, hash =>
    if b % 256 = 0 then hash else hash_str_loop round rest (round hash (b % 256))

/-- The function `fnv1_32_hash_n` (fnv1_32.c:5-12). -/
def fnv1_32_hash_n (data : List Nat) (len : Nat) : Nat :=
  hash_n_loop (fnv1_round prime_32 32) data len offset_32

/-- The function `fnv1a_32_hash_n` (fnv1_32.c:14-21). -/
def fnv1a_32_hash_n (data : List Nat) (len : Nat) : Nat :=
  hash_n_loop (fnv1a_round prime_32 32) data len offset_32

/-- The function `fnv1_32_hash` (fnv1_32.c:23-30). -/
def fnv1_32_hash (data : List Nat) : Nat :=
  hash_str_loop (fnv1_round prime_32 32) data offset_32

/-- The function `fnv1a_32_hash` (fnv1_32.c:32-39). -/
def fnv1a_32_hash (data : List Nat) : Nat :=
  hash_str_loop (fnv1a_round prime_32 32) data offset_32

/-- The function `fnv1_64_hash_n` (fnv1_64.c:5-12). -/
def fnv1_64_hash_n (data : List Nat) (len : Nat) : Nat :=
  hash_n_loop (fnv1_round prime_64 64) data len offset_64

/-- The function `fnv1a_64_hash_n` (fnv1_64.c:14-21). -/
def fnv1a_64_hash_n (data : List Nat) (len : Nat) : Nat :=
  hash_n_loop (fnv1a_round prime_64 64) data len offset_64

/-- The function `fnv1_64_hash` (fnv1_64.c:23-30). -/
def fnv1_64_hash (data : List Nat) : Nat :=
  hash_str_loop (fnv1_round prime_64 64) data offset_64

/-- The function `fnv1a_64_hash` (fnv1_64.c:32-39). -/
def fnv1a_64_hash (data : List Nat) : Nat :=
  hash_str_loop (fnv1a_round prime_64 64) data offset_64

/-- The FNV-1 recurrence as the claim words it: the left fold from `offset` of
`h -> ((h * prime) mod modulus) xor b`. -/
def fnv1_fold (offset prime modulus : Nat) (bs : List Nat) : Nat :=
  bs.foldl (fun h b => ((h * prime) % modulus) ^^^ b) offset

/-- The FNV-1a recurrence as the claim words it: the left fold from `offset` of
`h -> ((h xor b) * prime) mod modulus`. -/
def fnv1a_fold (offset prime modulus : Nat) (bs : List Nat) : Nat :=
  bs.foldl (fun h b => ((h ^^^ b) * prime) % modulus) offset

/-- The bytes of the string "Alice". -/
def alice_bytes : List Nat := [65, 108, 105, 99, 101]

/-- A well-formed map over the recording world two of whose entries hold the same value
pointer, 77. -/
def shared_value_map : hashmap Recorder :=
  rec_map 4 [[], [⟨30, 5, 77⟩], [⟨50, 2, 77⟩], []]

/-- A map over the recording world all of whose pointers (keys, values, nodes, bucket array,
record) are pairwise distinct. -/
def owned_demo_map : hashmap Recorder :=
  rec_map 4 [[], [⟨30, 5, 51⟩, ⟨40, 9, 91⟩], [⟨50, 2, 21⟩], []]

/-! ## Lemmas on buckets and scans -/

theorem bucket_at_set_bucket_self (map : hashmap W) (i : Nat) (chain : List hashmap_entry)
    (h : i < map.buckets.length) : bucket_at (set_bucket map i chain) i = chain := by
  simp [bucket_at, set_bucket, List.getD_eq_getElem?_getD, List.getElem?_set, h]

theorem bucket_at_set_bucket_ne (map : hashmap W) (i j : Nat) (chain : List hashmap_entry)
    (h : i ≠ j) : bucket_at (set_bucket map i chain) j = bucket_at map j := by
  simp [bucket_at, set_bucket, List.getD_eq_getElem?_getD, List.getElem?_set, h]

theorem bucket_index_lt (map : hashmap W) (key : Ptr) (hwf : well_formed map) :
    internal_get_bucket_index map key < map.buckets.length := by
  rw [hwf.2]
  exact Nat.mod_lt _ hwf.1

theorem set_scan_none_iff (map : hashmap W) (key value : Ptr) (chain : List hashmap_entry)
    (w : W) :
    set_scan map key value chain w = none ↔
      chain.find? (fun e => map.compare_key e.key key) = none := by
  induction chain with
  | nil => simp [set_scan]
  | cons e rest ih =>
    by_cases hc : map.compare_key e.key key = true
    · simp [set_scan, hc]
    · simp only [set_scan, hc, List.find?_cons]
      cases hs : set_scan map key value rest w with
      | none => simpa [hs] using ih
      | some r => simpa [hs] using ih

theorem set_scan_some_split (map : hashmap W) (key value : Ptr)
    (chain : List hashmap_entry) (w : W) (c : List hashmap_entry) (e1 : hashmap_entry) (w1 : W)
    (h : set_scan map key value chain w = some (c, e1, w1)) :
    ∃ pre e post, chain = pre ++ e :: post ∧
      (∀ x ∈ pre, map.compare_key x.key key = false) ∧ map.compare_key e.key key = true ∧
      e1 = { addr := e.addr, key := key, value := value } ∧ c = pre ++ e1 :: post ∧
      w1 = (internal_free_entry_kv (some e) map w).2 := by
  induction chain generalizing c with
  | nil => simp [set_scan] at h
  | cons e rest ih =>
    by_cases hc : map.compare_key e.key key = true
    · simp only [set_scan, hc, if_true, Option.some.injEq, Prod.mk.injEq] at h
      obtain ⟨rfl, rfl, rfl⟩ := h
      exact ⟨[], e, rest, rfl, by simp, hc, rfl, rfl, rfl⟩
    · simp only [set_scan, hc] at h
      cases hs : set_scan map key value rest w with
      | none => simp [hs] at h
      | some r =>
        obtain ⟨c2, e2, w2⟩ := r
        simp only [hs, Option.some.injEq, Prod.mk.injEq] at h
        obtain ⟨rfl, rfl, rfl⟩ := h
        obtain ⟨pre, e0, post, h1, h2, h3, h4, h5, h6⟩ := ih c2 hs
        refine ⟨e :: pre, e0, post, by simp [h1], ?_, h3, h4, by simp [h5], h6⟩
        intro x hx
        rcases List.mem_cons.1 hx with rfl | hx
        · simpa using hc
        · exact h2 x hx

theorem remove_scan_none_iff (map : hashmap W) (key : Ptr) (chain : List hashmap_entry)
    (w : W) :
    remove_scan map key chain w = none ↔
      chain.find? (fun e => map.compare_key e.key key) = none := by
  induction chain with
  | nil => simp [remove_scan]
  | cons e rest ih =>
    by_cases hc : map.compare_key e.key key = true
    · simp [remove_scan, hc]
    · simp only [remove_scan, hc, List.find?_cons]
      cases hs : remove_scan map key rest w with
      | none => simpa [hs] using ih
      | some r => simpa [hs] using ih

theorem remove_scan_some_split (map : hashmap W) (key : Ptr)
    (chain : List hashmap_entry) (w : W) (c : List hashmap_entry) (w1 : W)
    (h : remove_scan map key chain w = some (c, w1)) :
    ∃ pre e post, chain = pre ++ e :: post ∧
      (∀ x ∈ pre, map.compare_key x.key key = false) ∧ map.compare_key e.key key = true ∧
      c = pre ++ post ∧ w1 = internal_free_entry (some e) map w := by
  induction chain generalizing c with
  | nil => simp [remove_scan] at h
  | cons e rest ih =>
    by_cases hc : map.compare_key e.key key = true
    · simp only [remove_scan, hc, if_true, Option.some.injEq, Prod.mk.injEq] at h
      obtain ⟨rfl, rfl⟩ := h
      exact ⟨[], e, rest, rfl, by simp, hc, rfl, rfl⟩
    · simp only [remove_scan, hc] at h
      cases hs : remove_scan map key rest w with
      | none => simp [hs] at h
      | some r =>
        obtain ⟨c2, w2⟩ := r
        simp only [hs, Option.some.injEq, Prod.mk.injEq] at h
        obtain ⟨rfl, rfl⟩ := h
        obtain ⟨pre, e0, post, h1, h2, h3, h4, h5⟩ := ih c2 hs
        refine ⟨e :: pre, e0, post, by simp [h1], ?_, h3, by simp [h4], h5⟩
        intro x hx
        rcases List.mem_cons.1 hx with rfl | hx
        · simpa using hc
        · exact h2 x hx

/-- A lookup that skips a prefix without a match. -/
theorem find_skip_front (p : hashmap_entry → Bool) (pre rest : List hashmap_entry)
    (h : ∀ x ∈ pre, p x = false) : (pre ++ rest).find? p = rest.find? p := by
  induction pre with
  | nil => rfl
  | cons a pre ih =>
    have ha : p a = false := h a (by simp)
    simp only [List.cons_append, List.find?_cons, ha]
    exact ih (fun x hx => h x (by simp [hx]))

/-- Replacing one node of a chain by another leaves the lookup of a key alone that matches
neither of them. -/
theorem find_replace_other (p : hashmap_entry → Bool) (pre post : List hashmap_entry)
    (e e1 : hashmap_entry) (h : p e = false) (h1 : p e1 = false) :
    (pre ++ e1 :: post).find? p = (pre ++ e :: post).find? p := by
  induction pre with
  | nil => simp [List.find?_cons, h, h1]
  | cons a pre ih => simp only [List.cons_append, List.find?_cons, ih]

/-- Unlinking a node leaves the lookup of a key alone that does not match it. -/
theorem find_erase_other (p : hashmap_entry → Bool) (pre post : List hashmap_entry)
    (e : hashmap_entry) (h : p e = false) :
    (pre ++ post).find? p = (pre ++ e :: post).find? p := by
  induction pre with
  | nil => simp [List.find?_cons, h]
  | cons a pre ih => simp only [List.cons_append, List.find?_cons, ih]

/-- With a symmetric and transitive equality, a node that matches `k` does not match a key
that `k` does not match. -/
theorem compare_other_false (map : hashmap W) (hsymm : compare_symm map)
    (htrans : compare_trans map) (x k k2 : Ptr) (hx : map.compare_key x k = true)
    (hk : map.compare_key k k2 = false) : map.compare_key x k2 = false := by
  cases h : map.compare_key x k2 with
  | false => rfl
  | true =>
    have := htrans k x k2 (hsymm x k hx) h
    rw [hk] at this
    exact absurd this (by decide)

/-! ## What `hashmap_set` and `hashmap_remove` do, case by case -/

/-- The three ways `hashmap_set` can go: overwrite of the first matching node, failure of the
allocator with no match in the chain, and a new tail node. -/
theorem hashmap_set_cases (map : hashmap W) (k v : Ptr) (w : W) :
    (∃ pre e post, bucket_at map (internal_get_bucket_index map k) = pre ++ e :: post ∧
      (∀ x ∈ pre, map.compare_key x.key k = false) ∧ map.compare_key e.key k = true ∧
      hashmap_set map k v w =
        (some { addr := e.addr, key := k, value := v },
         set_bucket map (internal_get_bucket_index map k)
           (pre ++ { addr := e.addr, key := k, value := v } :: post),
         (internal_free_entry_kv (some e) map w).2)) ∨
    ((∀ x ∈ bucket_at map (internal_get_bucket_index map k), map.compare_key x.key k = false) ∧
      (map.alloc_data sizeof_hashmap_entry w).1 = NULL ∧
      hashmap_set map k v w = (none, map, (map.alloc_data sizeof_hashmap_entry w).2)) ∨
    ((∀ x ∈ bucket_at map (internal_get_bucket_index map k), map.compare_key x.key k = false) ∧
      (map.alloc_data sizeof_hashmap_entry w).1 ≠ NULL ∧
      hashmap_set map k v w =
        (some { addr := (map.alloc_data sizeof_hashmap_entry w).1, key := k, value := v },
         set_bucket map (internal_get_bucket_index map k)
           (bucket_at map (internal_get_bucket_index map k) ++
             [{ addr := (map.alloc_data sizeof_hashmap_entry w).1, key := k, value := v }]),
         (map.alloc_data sizeof_hashmap_entry w).2)) := by
  cases hs : set_scan map k v (bucket_at map (internal_get_bucket_index map k)) w with
  | some r =>
    obtain ⟨c, e1, w1⟩ := r
    obtain ⟨pre, e, post, h1, h2, h3, h4, h5, h6⟩ := set_scan_some_split map k v _ w c e1 w1 hs
    left
    refine ⟨pre, e, post, h1, h2, h3, ?_⟩
    simp only [hashmap_set, hs]
    rw [h5, h4, h6]
  | none =>
    have hnone := (set_scan_none_iff map k v _ w).1 hs
    have hall : ∀ x ∈ bucket_at map (internal_get_bucket_index map k),
        map.compare_key x.key k = false := by
      intro x hx
      have := (List.find?_eq_none.1 hnone) x hx
      simpa using this
    right
    by_cases ha : (map.alloc_data sizeof_hashmap_entry w).1 = NULL
    · left
      exact ⟨hall, ha, by simp only [hashmap_set, hs, ha, if_true]⟩
    · right
      exact ⟨hall, ha, by simp only [hashmap_set, hs, ha, if_false]⟩

/-- The two ways `hashmap_remove` can go: the first matching node is unlinked and released,
or nothing matches and nothing happens. -/
theorem hashmap_remove_cases (map : hashmap W) (k : Ptr) (w : W) :
    (∃ pre e post, bucket_at map (internal_get_bucket_index map k) = pre ++ e :: post ∧
      (∀ x ∈ pre, map.compare_key x.key k = false) ∧ map.compare_key e.key k = true ∧
      hashmap_remove map k w =
        (true, set_bucket map (internal_get_bucket_index map k) (pre ++ post),
         internal_free_entry (some e) map w)) ∨
    ((∀ x ∈ bucket_at map (internal_get_bucket_index map k), map.compare_key x.key k = false) ∧
      hashmap_remove map k w = (false, map, w)) := by
  cases hs : remove_scan map k (bucket_at map (internal_get_bucket_index map k)) w with
  | some r =>
    obtain ⟨c, w1⟩ := r
    obtain ⟨pre, e, post, h1, h2, h3, h4, h5⟩ := remove_scan_some_split map k _ w c w1 hs
    left
    refine ⟨pre, e, post, h1, h2, h3, ?_⟩
    simp only [hashmap_remove, hs]
    rw [h4, h5]
  | none =>
    have hnone := (remove_scan_none_iff map k _ w).1 hs
    right
    refine ⟨?_, by simp only [hashmap_remove, hs]⟩
    intro x hx
    have := (List.find?_eq_none.1 hnone) x hx
    simpa using this

/-- A lookup in a map one of whose buckets was rewritten. -/
theorem hashmap_get_set_bucket (map : hashmap W) (i : Nat) (chain : List hashmap_entry)
    (k : Ptr) (hi : i < map.buckets.length) :
    hashmap_get (set_bucket map i chain) k =
      if i = internal_get_bucket_index map k then
        chain.find? (fun e => map.compare_key e.key k)
      else hashmap_get map k := by
  by_cases h : i = internal_get_bucket_index map k
  · simp only [h, if_true]
    have := bucket_at_set_bucket_self map (internal_get_bucket_index map k) chain (h ▸ hi)
    simp only [hashmap_get]
    rw [show internal_get_bucket_index (set_bucket map (internal_get_bucket_index map k) chain) k
      = internal_get_bucket_index map k from rfl, this]
    rfl
  · simp only [h, if_false]
    have := bucket_at_set_bucket_ne map i (internal_get_bucket_index map k) chain h
    simp only [hashmap_get]
    rw [show internal_get_bucket_index (set_bucket map i chain) k
      = internal_get_bucket_index map k from rfl, this]
    rfl

/-- After a successful `hashmap_set map k v` the lookup of `k` finds the entry that was
returned, and it holds `k` and `v`. -/
theorem get_set_self (map : hashmap W) (w : W) (k v : Ptr)
    (hwf : well_formed map) (hrefl : compare_refl map)
    (hok : (hashmap_set map k v w).1 ≠ none) :
    ∃ e, hashmap_get (hashmap_set map k v w).2.1 k = some e ∧ e.key = k ∧ e.value = v ∧
      (hashmap_set map k v w).1 = some e := by
  have hlt := bucket_index_lt map k hwf
  rcases hashmap_set_cases map k v w with ⟨pre, e, post, h1, h2, h3, h4⟩ | ⟨_, _, h4⟩ |
    ⟨h2, _, h4⟩
  · refine ⟨{ addr := e.addr, key := k, value := v }, ?_, rfl, rfl, by rw [h4]⟩
    rw [h4]
    simp only [hashmap_get_set_bucket map _ _ k hlt, if_true]
    rw [find_skip_front _ pre _ h2]
    simp [List.find?_cons, hrefl k]
  · rw [h4] at hok
    exact absurd rfl hok
  · refine ⟨{ addr := (map.alloc_data sizeof_hashmap_entry w).1, key := k, value := v },
      ?_, rfl, rfl, by rw [h4]⟩
    rw [h4]
    simp only [hashmap_get_set_bucket map _ _ k hlt, if_true]
    rw [find_skip_front _ _ _ h2]
    simp [List.find?_cons, hrefl k]

/-- The call `hashmap_set map k v` does not change the lookup of a key that `k` does not
compare equal to. -/
theorem get_set_other (map : hashmap W) (w : W) (k v k2 : Ptr)
    (hwf : well_formed map) (hsymm : compare_symm map) (htrans : compare_trans map)
    (hne : map.compare_key k k2 = false) :
    hashmap_get (hashmap_set map k v w).2.1 k2 = hashmap_get map k2 := by
  have hlt := bucket_index_lt map k hwf
  rcases hashmap_set_cases map k v w with ⟨pre, e, post, h1, h2, h3, h4⟩ | ⟨_, _, h4⟩ |
    ⟨h2, _, h4⟩
  · rw [h4]
    simp only [hashmap_get_set_bucket map _ _ k2 hlt]
    split
    · rename_i hi
      simp only [hashmap_get, ← hi, h1]
      exact find_replace_other _ pre post e _
        (compare_other_false map hsymm htrans e.key k k2 h3 hne) hne
    · rfl
  · rw [h4]
  · rw [h4]
    simp only [hashmap_get_set_bucket map _ _ k2 hlt]
    split
    · rename_i hi
      simp only [hashmap_get, ← hi]
      rw [List.find?_append]
      simp [List.find?_cons, hne]
    · rfl

/-- The call `hashmap_remove map k` does not change the lookup of a key that `k` does not
compare equal to. -/
theorem get_remove_other (map : hashmap W) (w : W) (k k2 : Ptr)
    (hwf : well_formed map) (hsymm : compare_symm map) (htrans : compare_trans map)
    (hne : map.compare_key k k2 = false) :
    hashmap_get (hashmap_remove map k w).2.1 k2 = hashmap_get map k2 := by
  have hlt := bucket_index_lt map k hwf
  rcases hashmap_remove_cases map k w with ⟨pre, e, post, h1, h2, h3, h4⟩ | ⟨_, h4⟩
  · rw [h4]
    simp only [hashmap_get_set_bucket map _ _ k2 hlt]
    split
    · rename_i hi
      simp only [hashmap_get, ← hi, h1]
      exact find_erase_other _ pre post e
        (compare_other_false map hsymm htrans e.key k k2 h3 hne)
    · rfl
  · rw [h4]

/-! ## Invariants under `hashmap_set` -/

theorem bucket_at_set_bucket (map : hashmap W) (i j : Nat) (chain : List hashmap_entry) :
    bucket_at (set_bucket map i chain) j =
      if i = j ∧ i < map.buckets.length then chain else bucket_at map j := by
  by_cases h : i = j
  · subst h
    by_cases hi : i < map.buckets.length
    · simp [bucket_at_set_bucket_self map i chain hi, hi]
    · have hn : map.buckets[i]? = none := List.getElem?_eq_none (Nat.le_of_not_lt hi)
      simp [bucket_at, set_bucket, List.getD_eq_getElem?_getD, List.getElem?_set, hi, hn]
  · simp [bucket_at_set_bucket_ne map i j chain h, h]

theorem bucket_placement_set_bucket (map : hashmap W) (i : Nat) (chain : List hashmap_entry)
    (hp : bucket_placement map) (hc : ∀ e ∈ chain, map.hash_key e.key % map.size = i) :
    bucket_placement (set_bucket map i chain) := by
  intro j e he
  rw [bucket_at_set_bucket] at he
  split at he
  · rename_i hij
    have := hc e he
    rw [hij.1] at this
    exact this
  · exact hp j e he

theorem keys_unique_set_bucket (map : hashmap W) (i : Nat) (chain : List hashmap_entry)
    (hu : keys_unique map) (hc : chain_unique map chain) :
    keys_unique (set_bucket map i chain) := by
  intro j
  rw [bucket_at_set_bucket]
  split
  · exact hc
  · exact hu j

theorem well_formed_set_bucket (map : hashmap W) (i : Nat) (chain : List hashmap_entry)
    (hwf : well_formed map) : well_formed (set_bucket map i chain) := by
  refine ⟨hwf.1, ?_⟩
  show (map.buckets.set i chain).length = map.size
  rw [List.length_set]
  exact hwf.2

/-- Overwriting the first node that matches `k` with the key `k` keeps a chain free of equal
keys. -/
theorem chain_unique_overwrite (map : hashmap W) (htrans : compare_trans map)
    (pre post : List hashmap_entry) (e : hashmap_entry) (k v : Ptr)
    (hpre : ∀ x ∈ pre, map.compare_key x.key k = false) (he : map.compare_key e.key k = true)
    (hu : chain_unique map (pre ++ e :: post)) :
    chain_unique map (pre ++ { addr := e.addr, key := k, value := v } :: post) := by
  unfold chain_unique at hu ⊢
  rw [List.pairwise_append, List.pairwise_cons] at hu ⊢
  obtain ⟨h1, ⟨h2, h3⟩, h4⟩ := hu
  refine ⟨h1, ⟨?_, h3⟩, ?_⟩
  · intro y hy
    cases hky : map.compare_key k y.key with
    | false => rfl
    | true =>
      have := htrans e.key k y.key he hky
      rw [h2 y hy] at this
      exact absurd this (by decide)
  · intro x hx y hy
    rcases List.mem_cons.1 hy with rfl | hy
    · exact hpre x hx
    · exact h4 x hx y (List.mem_cons_of_mem _ hy)

/-- Appending a node whose key no node of the chain matches keeps the chain free of equal
keys. -/
theorem chain_unique_append (map : hashmap W) (chain : List hashmap_entry)
    (e : hashmap_entry) (hno : ∀ x ∈ chain, map.compare_key x.key e.key = false)
    (hu : chain_unique map chain) : chain_unique map (chain ++ [e]) := by
  unfold chain_unique at hu ⊢
  rw [List.pairwise_append]
  refine ⟨hu, List.pairwise_singleton _ _, ?_⟩
  intro x hx y hy
  rw [List.mem_singleton.1 hy]
  exact hno x hx

/-- The call `hashmap_set` writes the bucket array only. -/
theorem hashmap_set_fields (map : hashmap W) (k v : Ptr) (w : W) :
    ∃ b, (hashmap_set map k v w).2.1 = { map with buckets := b } := by
  rcases hashmap_set_cases map k v w with ⟨pre, e, post, _, _, _, h4⟩ | ⟨_, _, h4⟩ |
    ⟨_, _, h4⟩
  · exact ⟨_, by rw [h4]; rfl⟩
  · exact ⟨map.buckets, by rw [h4]⟩
  · exact ⟨_, by rw [h4]; rfl⟩

theorem hashmap_set_well_formed (map : hashmap W) (k v : Ptr) (w : W)
    (hwf : well_formed map) : well_formed (hashmap_set map k v w).2.1 := by
  rcases hashmap_set_cases map k v w with ⟨pre, e, post, _, _, _, h4⟩ | ⟨_, _, h4⟩ |
    ⟨_, _, h4⟩
  · rw [h4]; exact well_formed_set_bucket map _ _ hwf
  · rw [h4]; exact hwf
  · rw [h4]; exact well_formed_set_bucket map _ _ hwf

theorem hashmap_set_bucket_placement (map : hashmap W) (k v : Ptr) (w : W)
    (hp : bucket_placement map) : bucket_placement (hashmap_set map k v w).2.1 := by
  rcases hashmap_set_cases map k v w with ⟨pre, e, post, h1, _, _, h4⟩ | ⟨_, _, h4⟩ |
    ⟨_, _, h4⟩
  · rw [h4]
    apply bucket_placement_set_bucket map _ _ hp
    intro x hx
    have hold := hp (internal_get_bucket_index map k)
    rw [h1] at hold
    rcases List.mem_append.1 hx with hx | hx
    · exact hold x (List.mem_append_left _ hx)
    · rcases List.mem_cons.1 hx with rfl | hx
      · rfl
      · exact hold x (List.mem_append_right _ (List.mem_cons_of_mem _ hx))
  · rw [h4]; exact hp
  · rw [h4]
    apply bucket_placement_set_bucket map _ _ hp
    intro x hx
    rcases List.mem_append.1 hx with hx | hx
    · exact hp _ x hx
    · rw [List.mem_singleton.1 hx]; rfl

theorem hashmap_set_keys_unique (map : hashmap W) (k v : Ptr) (w : W)
    (htrans : compare_trans map) (hu : keys_unique map) :
    keys_unique (hashmap_set map k v w).2.1 := by
  rcases hashmap_set_cases map k v w with ⟨pre, e, post, h1, h2, h3, h4⟩ | ⟨_, _, h4⟩ |
    ⟨h2, _, h4⟩
  · rw [h4]
    apply keys_unique_set_bucket map _ _ hu
    have hold := hu (internal_get_bucket_index map k)
    rw [h1] at hold
    exact chain_unique_overwrite map htrans pre post e k v h2 h3 hold
  · rw [h4]; exact hu
  · rw [h4]
    apply keys_unique_set_bucket map _ _ hu
    exact chain_unique_append map _ _ h2 (hu _)

theorem hashmap_set_ok (map : hashmap W) (k v : Ptr) (w : W)
    (halloc : (map.alloc_data sizeof_hashmap_entry w).1 ≠ NULL) :
    (hashmap_set map k v w).1 ≠ none := by
  rcases hashmap_set_cases map k v w with ⟨pre, e, post, _, _, _, h4⟩ | ⟨_, h3, _⟩ |
    ⟨_, _, h4⟩
  · rw [h4]; simp
  · exact absurd h3 halloc
  · rw [h4]; simp

/-- Keys that compare equal are looked up alike. -/
theorem get_congr (map : hashmap W) (hl : callbacks_lawful map) (k k2 : Ptr)
    (h : map.compare_key k k2 = true) : hashmap_get map k2 = hashmap_get map k := by
  obtain ⟨_, hsymm, htrans, hhash⟩ := hl
  have hidx : internal_get_bucket_index map k2 = internal_get_bucket_index map k := by
    simp only [internal_get_bucket_index, hhash k k2 h]
  have hp : (fun (e : hashmap_entry) => map.compare_key e.key k2) =
      (fun (e : hashmap_entry) => map.compare_key e.key k) := by
    funext e
    cases h1 : map.compare_key e.key k with
    | true => exact htrans e.key k k2 h1 h
    | false =>
      cases h2 : map.compare_key e.key k2 with
      | false => rfl
      | true =>
        have := htrans e.key k2 k h2 (hsymm k k2 h)
        rw [h1] at this
        exact absurd this (by decide)
  simp only [hashmap_get, hidx, hp]

/-! ## Creation -/

/-- A successful `hashmap_create`: what was asked of the allocator and what is returned. -/
theorem hashmap_create_some (size : Nat) (h : Ptr → Nat) (c : Ptr → Ptr → Bool)
    (a : Nat → W → Ptr × W) (f : Ptr → W → W) (fk fv : Option (Ptr → W → W)) (w0 w1 : W)
    (m : hashmap W)
    (hc : hashmap_create size (some h) (some c) (some a) (some f) fk fv w0
      = create_result.returned (some m) w1) :
    0 < size ∧ (a sizeof_hashmap w0).1 ≠ NULL ∧
      (a ((size * sizeof_entry_ptr) % SIZE_MOD) (a sizeof_hashmap w0).2).1 ≠ NULL ∧
      w1 = (a ((size * sizeof_entry_ptr) % SIZE_MOD) (a sizeof_hashmap w0).2).2 ∧
      m = { addr := (a sizeof_hashmap w0).1
            buckets_addr := (a ((size * sizeof_entry_ptr) % SIZE_MOD) (a sizeof_hashmap w0).2).1
            buckets := List.replicate size []
            size := size
            hash_key := h
            compare_key := c
            alloc_data := a
            free_data := f
            free_key := fk
            free_value := fv } := by
  simp only [hashmap_create] at hc
  by_cases hs : size ≤ 0
  · simp [hs] at hc
  · by_cases h1 : (a sizeof_hashmap w0).1 = NULL
    · simp [hs, h1] at hc
    · by_cases h2 : (a ((size * sizeof_entry_ptr) % SIZE_MOD) (a sizeof_hashmap w0).2).1 = NULL
      · simp [hs, h1, h2] at hc
      · by_cases h3 : (size * sizeof_entry_ptr) % SIZE_MOD < size * sizeof_entry_ptr
        · simp [hs, h1, h2, h3] at hc
        · simp only [hs, h1, h2, h3, if_false, create_result.returned.injEq,
            Option.some.injEq] at hc
          exact ⟨Nat.lt_of_not_le hs, h1, h2, hc.2.symm, hc.1.symm⟩

theorem bucket_at_replicate (map : hashmap W) (n : Nat) (hb : map.buckets = List.replicate n [])
    (i : Nat) : bucket_at map i = [] := by
  simp only [bucket_at, hb, List.getD_eq_getElem?_getD, List.getElem?_replicate]
  split <;> rfl

/-- A map all of whose buckets are empty satisfies bucket placement and key uniqueness and
finds no key. -/
theorem empty_map_facts (map : hashmap W) (n : Nat) (hb : map.buckets = List.replicate n []) :
    bucket_placement map ∧ keys_unique map ∧ ∀ k, hashmap_get map k = none := by
  refine ⟨?_, ?_, ?_⟩
  · intro i e he
    rw [bucket_at_replicate map n hb i] at he
    exact absurd he (List.not_mem_nil e)
  · intro i
    rw [bucket_at_replicate map n hb i]
    exact List.Pairwise.nil
  · intro k
    simp only [hashmap_get, bucket_at_replicate map n hb, List.find?_nil]

/-! ## Sequences of `hashmap_set` -/

/-- After a sequence of `hashmap_set` calls with a succeeding allocator and lawful callbacks
the invariants still hold and a lookup finds the pair of the most recent call with an equal
key, or else what it found before the sequence. -/
theorem set_all_spec (sets : List (Ptr × Ptr)) :
    ∀ (map : hashmap W) (w : W), well_formed map → callbacks_lawful map →
      alloc_succeeds map → bucket_placement map → keys_unique map →
      (well_formed (set_all map sets w).1 ∧ bucket_placement (set_all map sets w).1 ∧
        keys_unique (set_all map sets w).1 ∧
        (set_all map sets w).1.compare_key = map.compare_key ∧
        ∀ k, (hashmap_get (set_all map sets w).1 k).map entry_kv =
          (last_set map.compare_key k sets).or ((hashmap_get map k).map entry_kv)) := by
  induction sets with
  | nil =>
    intro map w hwf _ _ hp hu
    exact ⟨hwf, hp, hu, rfl, fun k => by simp [set_all, last_set]⟩
  | cons kv rest ih =>
    intro map w hwf hl ha hp hu
    obtain ⟨b, hb⟩ := hashmap_set_fields map kv.1 kv.2 w
    have hwf1 := hashmap_set_well_formed map kv.1 kv.2 w hwf
    have hp1 := hashmap_set_bucket_placement map kv.1 kv.2 w hp
    have hu1 := hashmap_set_keys_unique map kv.1 kv.2 w hl.2.2.1 hu
    have hl1 : callbacks_lawful (hashmap_set map kv.1 kv.2 w).2.1 := by rw [hb]; exact hl
    have ha1 : alloc_succeeds (hashmap_set map kv.1 kv.2 w).2.1 := by rw [hb]; exact ha
    have hcmp : (hashmap_set map kv.1 kv.2 w).2.1.compare_key = map.compare_key := by rw [hb]
    obtain ⟨i1, i2, i3, i4, i5⟩ := ih (hashmap_set map kv.1 kv.2 w).2.1
      (hashmap_set map kv.1 kv.2 w).2.2 hwf1 hl1 ha1 hp1 hu1
    refine ⟨i1, i2, i3, by rw [← hcmp]; exact i4, ?_⟩
    intro k
    have hstep := i5 k
    simp only [set_all]
    rw [hstep, hcmp]
    have hlast : last_set map.compare_key k (kv :: rest) =
        (last_set map.compare_key k rest).or (if map.compare_key kv.1 k then some kv else none) := by
      simp only [last_set, List.reverse_cons, List.find?_append, List.find?_cons,
        List.find?_nil]
      cases map.compare_key kv.1 k <;> rfl
    rw [hlast]
    cases hr : last_set map.compare_key k rest with
    | some r => rfl
    | none =>
      simp only [Option.or]
      cases hk : map.compare_key kv.1 k with
      | true =>
        have hok := hashmap_set_ok map kv.1 kv.2 w (ha _ w)
        obtain ⟨e, e1, e2, e3, _⟩ := get_set_self map w kv.1 kv.2 hwf hl.1 hok
        have hk1 : (hashmap_set map kv.1 kv.2 w).2.1.compare_key kv.1 k = true := by
          rw [hcmp]; exact hk
        rw [get_congr _ hl1 kv.1 k hk1, e1]
        simp [entry_kv, e2, e3]
      | false =>
        rw [get_set_other map w kv.1 kv.2 k hwf hl.2.1 hl.2.2.1 hk]
        simp

/-- Claim C2: a sequence of `hashmap_set` calls on a freshly created map, with an allocator
that always succeeds and an equality callback that is an equivalence relation under which
equal keys hash identically.  Afterwards `hashmap_get` of any key `k` finds an entry holding
the key and the value of the most recent call whose key compares equal to `k`, it returns
`NULL` when no call had such a key, and no bucket chain holds two entries with equal keys. -/
theorem last_write_wins (size : Nat) (h : Ptr → Nat) (c : Ptr → Ptr → Bool)
    (a : Nat → W → Ptr × W) (f : Ptr → W → W) (fk fv : Option (Ptr → W → W)) (w0 w1 : W)
    (fresh : hashmap W)
    (hcreate :
      hashmap_create size (some h) (some c) (some a) (some f) fk fv w0
        = create_result.returned (some fresh) w1)
    (halloc : ∀ n w, (a n w).1 ≠ NULL)
    (hrefl : ∀ x, c x x = true) (hsymm : ∀ x y, c x y = true → c y x = true)
    (htrans : ∀ x y z, c x y = true → c y z = true → c x z = true)
    (hhash : ∀ x y, c x y = true → h x = h y)
    (sets : List (Ptr × Ptr)) :
    (∀ k, (hashmap_get (set_all fresh sets w1).1 k).map entry_kv = last_set c k sets) ∧
    (∀ k, (∀ kv ∈ sets, c kv.1 k = false) → hashmap_get (set_all fresh sets w1).1 k = none) ∧
    (∀ i, (bucket_at (set_all fresh sets w1).1 i).Pairwise
      (fun e1 e2 => c e1.key e2.key = false)) := by
  obtain ⟨hpos, _, _, _, hm⟩ := hashmap_create_some size h c a f fk fv w0 w1 fresh hcreate
  have hbk : fresh.buckets = List.replicate size [] := by rw [hm]
  have hwf : well_formed fresh := by
    rw [hm]; exact ⟨hpos, List.length_replicate _ _⟩
  have hl : callbacks_lawful fresh := by
    rw [hm]; exact ⟨hrefl, hsymm, htrans, hhash⟩
  have ha : alloc_succeeds fresh := by
    rw [hm]; exact halloc
  have hcmp : fresh.compare_key = c := by rw [hm]
  obtain ⟨hp, hu, hg⟩ := empty_map_facts fresh size hbk
  obtain ⟨_, _, s3, s4, s5⟩ := set_all_spec sets fresh w1 hwf hl ha hp hu
  have hmain : ∀ k, (hashmap_get (set_all fresh sets w1).1 k).map entry_kv =
      last_set c k sets := by
    intro k
    rw [s5 k, hg k, hcmp]
    cases last_set c k sets <;> rfl
  refine ⟨hmain, ?_, ?_⟩
  · intro k hk
    have h1 := hmain k
    have h2 : last_set c k sets = none := by
      simp only [last_set, List.find?_eq_none]
      intro kv hkv
      simp [hk kv (List.mem_reverse.1 hkv)]
    rw [h2] at h1
    cases hx : hashmap_get (set_all fresh sets w1).1 k with
    | none => rfl
    | some e => rw [hx] at h1; simp at h1
  · intro i
    have := s3 i
    unfold chain_unique at this
    rw [s4, hcmp] at this
    exact this

/-! ## Round trip -/

/-- Claim C1: on a well-formed map with a reflexive equality callback, when the allocator
answers the request for a node with a non-null pointer, `hashmap_set map k v` followed by
`hashmap_get map k` returns an entry with key `k` and value `v`, which is the entry
`hashmap_set` returned, and `hashmap_get_value` returns `v`; this holds whether or not an
equal key was present before. -/
theorem set_then_get_roundtrip (map : hashmap W) (w : W) (k v : Ptr)
    (hwf : well_formed map) (hrefl : compare_refl map)
    (halloc : (map.alloc_data sizeof_hashmap_entry w).1 ≠ NULL) :
    ∃ e, hashmap_get (hashmap_set map k v w).2.1 k = some e ∧ e.key = k ∧ e.value = v ∧
      (hashmap_set map k v w).1 = some e ∧
      hashmap_get_value (hashmap_set map k v w).2.1 k = v := by
  have hok : (hashmap_set map k v w).1 ≠ none := by
    rcases hashmap_set_cases map k v w with ⟨pre, e, post, _, _, _, h4⟩ | ⟨_, h3, _⟩ |
      ⟨_, _, h4⟩
    · rw [h4]; simp
    · exact absurd h3 halloc
    · rw [h4]; simp
  obtain ⟨e, h1, h2, h3, h4⟩ := get_set_self map w k v hwf hrefl hok
  exact ⟨e, h1, h2, h3, h4, by simp only [hashmap_get_value, h1, h3]⟩

/-! ## Removal -/

/-- The flag `hashmap_remove` returns says whether the lookup of the key finds an entry. -/
theorem hashmap_remove_flag (map : hashmap W) (k : Ptr) (w : W) :
    (hashmap_remove map k w).1 = (hashmap_get map k).isSome := by
  rcases hashmap_remove_cases map k w with ⟨pre, e, post, h1, h2, h3, h4⟩ | ⟨h2, h4⟩
  · rw [h4]
    simp only [hashmap_get, h1]
    rw [find_skip_front _ pre _ h2]
    simp [List.find?_cons, h3]
  · rw [h4]
    have : hashmap_get map k = none := by
      simp only [hashmap_get, List.find?_eq_none]
      intro x hx
      simp [h2 x hx]
    rw [this]
    rfl

/-- An entry of a bucket sits in one of the chains of the bucket array. -/
theorem mem_bucket_at (map : hashmap W) (i : Nat) (e : hashmap_entry)
    (he : e ∈ bucket_at map i) : ∃ chain ∈ map.buckets, e ∈ chain := by
  simp only [bucket_at, List.getD_eq_getElem?_getD] at he
  cases hc : map.buckets[i]? with
  | none => rw [hc] at he; simp at he
  | some chain =>
    rw [hc] at he
    exact ⟨chain, List.mem_iff_getElem?.2 ⟨i, hc⟩, by simpa using he⟩

/-- Claim C3: on a well-formed map without equal keys in a chain, with a symmetric and
transitive equality callback, for a key `k` that `hashmap_get` finds, `hashmap_remove map k`
returns true, a following `hashmap_get map k` returns `NULL`, and a second
`hashmap_remove map k` returns false. -/
theorem remove_present_key (map : hashmap W) (w : W) (k : Ptr)
    (hwf : well_formed map) (hu : keys_unique map)
    (hsymm : compare_symm map) (htrans : compare_trans map)
    (hget : hashmap_get map k ≠ none) :
    (hashmap_remove map k w).1 = true ∧
    hashmap_get (hashmap_remove map k w).2.1 k = none ∧
    (hashmap_remove (hashmap_remove map k w).2.1 k (hashmap_remove map k w).2.2).1 = false := by
  have hlt := bucket_index_lt map k hwf
  have hgone : hashmap_get (hashmap_remove map k w).2.1 k = none := by
    rcases hashmap_remove_cases map k w with ⟨pre, e, post, h1, h2, h3, h4⟩ | ⟨h2, h4⟩
    · rw [h4]
      simp only [hashmap_get_set_bucket map _ _ k hlt, if_true]
      rw [find_skip_front _ pre _ h2, List.find?_eq_none]
      intro y hy
      have hchain := hu (internal_get_bucket_index map k)
      unfold chain_unique at hchain
      rw [h1, List.pairwise_append, List.pairwise_cons] at hchain
      have hey := hchain.2.1.1 y hy
      cases hyk : map.compare_key y.key k with
      | false => simp
      | true =>
        have := htrans e.key k y.key h3 (hsymm y.key k hyk)
        rw [hey] at this
        exact absurd this (by decide)
    · exfalso
      apply hget
      simp only [hashmap_get, List.find?_eq_none]
      intro x hx
      simp [h2 x hx]
  refine ⟨?_, hgone, ?_⟩
  · rw [hashmap_remove_flag]
    cases hg : hashmap_get map k with
    | none => exact absurd hg hget
    | some e => rfl
  · rw [hashmap_remove_flag, hgone]
    rfl

/-- Claim C4: when no entry of the map has a key that compares equal to `k`,
`hashmap_remove map k` returns false, the map afterwards is the map before (every chain the
same list of entries), and the world afterwards is the world before: no callback that acts
on the world was invoked. -/
theorem remove_absent_key (map : hashmap W) (w : W) (k : Ptr)
    (habs : ∀ chain ∈ map.buckets, ∀ e ∈ chain, map.compare_key e.key k = false) :
    hashmap_remove map k w = (false, map, w) := by
  rcases hashmap_remove_cases map k w with ⟨pre, e, post, h1, _, h3, _⟩ | ⟨_, h4⟩
  · exfalso
    have hmem : e ∈ bucket_at map (internal_get_bucket_index map k) := by
      rw [h1]; simp
    obtain ⟨chain, hc, he⟩ := mem_bucket_at map _ e hmem
    rw [habs chain hc e he] at h3
    exact absurd h3 (by decide)
  · exact h4

/-! ## Frame -/

/-- Claim C5: on a well-formed map with a symmetric and transitive equality callback, for
keys `k` and `k2` that do not compare equal (whether or not they select the same bucket),
`hashmap_get` and `hashmap_get_value` of `k2` give the same result after
`hashmap_set map k v` as before it, and the same result after `hashmap_remove map k` as
before it. -/
theorem other_keys_unaffected (map : hashmap W) (w : W) (k v k2 : Ptr)
    (hwf : well_formed map) (hsymm : compare_symm map) (htrans : compare_trans map)
    (hne : map.compare_key k k2 = false) :
    hashmap_get (hashmap_set map k v w).2.1 k2 = hashmap_get map k2 ∧
    hashmap_get_value (hashmap_set map k v w).2.1 k2 = hashmap_get_value map k2 ∧
    hashmap_get (hashmap_remove map k w).2.1 k2 = hashmap_get map k2 ∧
    hashmap_get_value (hashmap_remove map k w).2.1 k2 = hashmap_get_value map k2 := by
  have h1 := get_set_other map w k v k2 hwf hsymm htrans hne
  have h2 := get_remove_other map w k k2 hwf hsymm htrans hne
  refine ⟨h1, ?_, h2, ?_⟩
  · simp only [hashmap_get_value, h1]
  · simp only [hashmap_get_value, h2]

/-! ## Creation: validation and allocation -/

/-- Claim C6: with an allocator that answers every request with a non-null pointer,
`hashmap_create` returns `NULL` exactly when the bucket count is 0 or one of `hash_key`,
`compare_key`, `alloc_data`, `free_data` is absent, whatever `free_key` and `free_value`
are; and in those cases the world is untouched, so the allocator was not called. -/
theorem create_validation (size : Nat)
    (hash_key : Option (Ptr → Nat)) (compare_key : Option (Ptr → Ptr → Bool))
    (alloc_data : Option (Nat → W → Ptr × W)) (free_data : Option (Ptr → W → W))
    (free_key free_value : Option (Ptr → W → W)) (w : W)
    (halloc : ∀ a, alloc_data = some a → ∀ n w1, (a n w1).1 ≠ NULL) :
    ((∃ w1, hashmap_create size hash_key compare_key alloc_data free_data free_key
          free_value w = create_result.returned none w1) ↔
      (size = 0 ∨ hash_key = none ∨ compare_key = none ∨ alloc_data = none ∨
        free_data = none)) ∧
    ((size = 0 ∨ hash_key = none ∨ compare_key = none ∨ alloc_data = none ∨
        free_data = none) →
      hashmap_create size hash_key compare_key alloc_data free_data free_key free_value w
        = create_result.returned none w) := by
  cases hash_key with
  | none => simp [hashmap_create]
  | some h =>
  cases compare_key with
  | none => simp [hashmap_create]
  | some c =>
  cases alloc_data with
  | none => simp [hashmap_create]
  | some a =>
  cases free_data with
  | none => simp [hashmap_create]
  | some f =>
  have ha := halloc a rfl
  by_cases hs : size = 0
  · simp [hashmap_create, hs]
  · by_cases h3 : (size * sizeof_entry_ptr) % SIZE_MOD < size * sizeof_entry_ptr
    · simp [hashmap_create, hs, ha, h3]
    · simp [hashmap_create, hs, ha, h3]

/-- The paths of `hashmap_create` for a positive bucket count and the four required
callbacks present.  When the allocation of the record fails, it returns `NULL` and the world
is the one the allocator left.  When the record is allocated and the allocation of the bucket
array fails, it returns `NULL` and the world is the one the second allocator call left with
`free_data` applied once, to the record.  When both succeed and the byte count of the bucket
array has not wrapped, it returns a map with the requested bucket count, the six callbacks as
given and that many empty buckets.  When both succeed and the byte count has wrapped, the
initialisation loop leaves the block. -/
theorem create_allocation_paths (size : Nat) (h : Ptr → Nat) (c : Ptr → Ptr → Bool)
    (a : Nat → W → Ptr × W) (f : Ptr → W → W) (fk fv : Option (Ptr → W → W)) (w : W)
    (hsize : 0 < size) :
    ((a sizeof_hashmap w).1 = NULL →
      hashmap_create size (some h) (some c) (some a) (some f) fk fv w
        = create_result.returned none (a sizeof_hashmap w).2) ∧
    ((a sizeof_hashmap w).1 ≠ NULL →
      (a ((size * sizeof_entry_ptr) % SIZE_MOD) (a sizeof_hashmap w).2).1 = NULL →
      hashmap_create size (some h) (some c) (some a) (some f) fk fv w
        = create_result.returned none (f (a sizeof_hashmap w).1
            (a ((size * sizeof_entry_ptr) % SIZE_MOD) (a sizeof_hashmap w).2).2)) ∧
    ((a sizeof_hashmap w).1 ≠ NULL →
      (a ((size * sizeof_entry_ptr) % SIZE_MOD) (a sizeof_hashmap w).2).1 ≠ NULL →
      size * sizeof_entry_ptr < SIZE_MOD →
      ∃ m, hashmap_create size (some h) (some c) (some a) (some f) fk fv w
          = create_result.returned (some m)
              (a ((size * sizeof_entry_ptr) % SIZE_MOD) (a sizeof_hashmap w).2).2 ∧
        m.addr = (a sizeof_hashmap w).1 ∧
        m.buckets_addr = (a ((size * sizeof_entry_ptr) % SIZE_MOD) (a sizeof_hashmap w).2).1 ∧
        m.size = size ∧ m.hash_key = h ∧ m.compare_key = c ∧ m.alloc_data = a ∧
        m.free_data = f ∧ m.free_key = fk ∧ m.free_value = fv ∧
        m.buckets = List.replicate size [] ∧ m.buckets.length = size ∧
        (∀ i, bucket_at m i = []) ∧ ∀ k, hashmap_get m k = none) ∧
    ((a sizeof_hashmap w).1 ≠ NULL →
      (a ((size * sizeof_entry_ptr) % SIZE_MOD) (a sizeof_hashmap w).2).1 ≠ NULL →
      SIZE_MOD ≤ size * sizeof_entry_ptr →
      hashmap_create size (some h) (some c) (some a) (some f) fk fv w
        = create_result.out_of_bounds
            (a ((size * sizeof_entry_ptr) % SIZE_MOD) (a sizeof_hashmap w).2).2) := by
  have hs : ¬ size ≤ 0 := Nat.not_le.2 hsize
  refine ⟨?_, ?_, ?_, ?_⟩
  · intro h1
    simp [hashmap_create, hs, h1]
  · intro h1 h2
    simp [hashmap_create, hs, h1, h2]
  · intro h1 h2 hr
    have h3 : ¬ (size * sizeof_entry_ptr) % SIZE_MOD < size * sizeof_entry_ptr := by
      rw [Nat.mod_eq_of_lt hr]
      exact Nat.lt_irrefl _
    simp only [hashmap_create, hs, h1, h2, h3, if_false]
    refine ⟨_, rfl, rfl, rfl, rfl, rfl, rfl, rfl, rfl, rfl, rfl, rfl,
      List.length_replicate _ _, ?_, ?_⟩
    · intro i
      exact bucket_at_replicate _ size rfl i
    · exact (empty_map_facts _ size rfl).2.2
  · intro h1 h2 hr
    have h3 : (size * sizeof_entry_ptr) % SIZE_MOD < size * sizeof_entry_ptr :=
      Nat.lt_of_lt_of_le (Nat.mod_lt _ (by decide)) hr
    simp only [hashmap_create, hs, h1, h2, h3, if_false, if_true]

/-- Claim C7, the code at an input.  For `2 ^ 61 + 1` buckets and all callbacks present, with
an allocator that answers both requests, `hashmap_create` asks for 64 bytes for the record
and for `(2 ^ 61 + 1) * 8 mod 2 ^ 64 = 8` bytes for the bucket array, and its initialisation
loop then stores `2 ^ 61 + 1` bucket heads into that block of 8 bytes: it does not return a
map with `2 ^ 61 + 1` empty buckets, it leaves the block. -/
theorem create_overflows_bucket_array :
    ((2 ^ 61 + 1) * sizeof_entry_ptr) % SIZE_MOD = 8 ∧
    hashmap_create (2 ^ 61 + 1) (some demo_hash) (some demo_compare) (some rec_alloc)
        (some rec_free_data) (some rec_free_key) (some rec_free_value)
        { trace := [], script := [1000, 2000] }
      = create_result.out_of_bounds
          { trace := [Event.alloc 64 1000, Event.alloc 8 2000], script := [] } := by
  refine ⟨by decide, ?_⟩
  have h := (create_allocation_paths (2 ^ 61 + 1) demo_hash demo_compare rec_alloc
    rec_free_data (some rec_free_key) (some rec_free_value)
    { trace := [], script := [1000, 2000] } (by decide)).2.2.2 (by decide) (by decide)
    (by decide)
  rw [h]
  rfl

/-! ## Allocation failure in `hashmap_set` -/

/-- The scan of `hashmap_set` does not depend on the allocator. -/
theorem set_scan_alloc_irrelevant (map : hashmap W) (a2 : Nat → W → Ptr × W) (k v : Ptr)
    (chain : List hashmap_entry) (w : W) :
    set_scan { map with alloc_data := a2 } k v chain w = set_scan map k v chain w := by
  induction chain with
  | nil => rfl
  | cons e rest ih =>
    simp only [set_scan, ih]
    rfl

/-- An entry with a key equal to `k` sits in the bucket of `k`, when entries sit in the
bucket of their hash and equal keys hash identically. -/
theorem present_in_bucket (map : hashmap W) (k : Ptr) (hp : bucket_placement map)
    (hhash : hash_consistent map)
    (hpres : ∃ chain ∈ map.buckets, ∃ e ∈ chain, map.compare_key e.key k = true) :
    ∃ e ∈ bucket_at map (internal_get_bucket_index map k), map.compare_key e.key k = true := by
  obtain ⟨chain, hc, e, he, hek⟩ := hpres
  obtain ⟨i, hi⟩ := List.mem_iff_getElem?.1 hc
  have hb : bucket_at map i = chain := by
    simp [bucket_at, List.getD_eq_getElem?_getD, hi]
  have hpl := hp i e (by rw [hb]; exact he)
  have hidx : internal_get_bucket_index map k = i := by
    simp only [internal_get_bucket_index, ← hhash e.key k hek]
    exact hpl
  exact ⟨e, by rw [hidx, hb]; exact he, hek⟩

/-- Claim C8: when no entry of the map has a key equal to `k` and `alloc_data` answers
`NULL`, `hashmap_set` returns `NULL`, the map is the map before, and the world is the one
the allocator call left: no destructor was applied.  When an entry with an equal key is
present (entries sitting in the bucket of their hash, equal keys hashing identically),
`hashmap_set` returns the first such entry of the bucket, overwritten, the world is the one
left by releasing the old key and value, and the outcome is the same under any other
allocator, in particular one that always fails. -/
theorem set_alloc_failure_atomic (map : hashmap W) (w : W) (k v : Ptr) :
    ((∀ chain ∈ map.buckets, ∀ e ∈ chain, map.compare_key e.key k = false) →
      (map.alloc_data sizeof_hashmap_entry w).1 = NULL →
      hashmap_set map k v w = (none, map, (map.alloc_data sizeof_hashmap_entry w).2)) ∧
    (bucket_placement map → hash_consistent map →
      (∃ chain ∈ map.buckets, ∃ e ∈ chain, map.compare_key e.key k = true) →
      ∃ e0, hashmap_get map k = some e0 ∧
        (hashmap_set map k v w).1 = some { addr := e0.addr, key := k, value := v } ∧
        (hashmap_set map k v w).2.2 = (internal_free_entry_kv (some e0) map w).2 ∧
        ∀ a2 : Nat → W → Ptr × W,
          (hashmap_set { map with alloc_data := a2 } k v w).1 = (hashmap_set map k v w).1 ∧
          (hashmap_set { map with alloc_data := a2 } k v w).2.1.buckets
            = (hashmap_set map k v w).2.1.buckets ∧
          (hashmap_set { map with alloc_data := a2 } k v w).2.2
            = (hashmap_set map k v w).2.2) := by
  refine ⟨?_, ?_⟩
  · intro habs hfail
    rcases hashmap_set_cases map k v w with ⟨pre, e, post, h1, _, h3, _⟩ | ⟨_, _, h4⟩ |
      ⟨_, h3, _⟩
    · exfalso
      have hmem : e ∈ bucket_at map (internal_get_bucket_index map k) := by
        rw [h1]; simp
      obtain ⟨chain, hc, he⟩ := mem_bucket_at map _ e hmem
      rw [habs chain hc e he] at h3
      exact absurd h3 (by decide)
    · exact h4
    · exact absurd hfail h3
  · intro hp hhash hpres
    obtain ⟨e, he, hek⟩ := present_in_bucket map k hp hhash hpres
    cases hs : set_scan map k v (bucket_at map (internal_get_bucket_index map k)) w with
    | none =>
      exfalso
      have hnone := (set_scan_none_iff map k v _ w).1 hs
      have := (List.find?_eq_none.1 hnone) e he
      simp [hek] at this
    | some r =>
      obtain ⟨c, e1, w1⟩ := r
      obtain ⟨pre, e0, post, h1, h2, h3, h4, h5, h6⟩ :=
        set_scan_some_split map k v _ w c e1 w1 hs
      have hs2 : ∀ a2 : Nat → W → Ptr × W,
          set_scan { map with alloc_data := a2 } k v
            (bucket_at map (internal_get_bucket_index map k)) w = some (c, e1, w1) := by
        intro a2
        rw [set_scan_alloc_irrelevant, hs]
      refine ⟨e0, ?_, ?_, ?_, ?_⟩
      · simp only [hashmap_get, h1]
        rw [find_skip_front _ pre _ h2]
        simp [List.find?_cons, h3]
      · simp only [hashmap_set, hs, h4]
      · simp only [hashmap_set, hs, h6]
      · intro a2
        have hs3 := hs2 a2
        have hset2 : hashmap_set { map with alloc_data := a2 } k v w =
            (some e1, set_bucket { map with alloc_data := a2 }
              (internal_get_bucket_index map k) c, w1) := by
          simp only [hashmap_set]
          rw [show bucket_at { map with alloc_data := a2 }
              (internal_get_bucket_index { map with alloc_data := a2 } k)
            = bucket_at map (internal_get_bucket_index map k) from rfl, hs3]
          rfl
        have hset1 : hashmap_set map k v w =
            (some e1, set_bucket map (internal_get_bucket_index map k) c, w1) := by
          simp only [hashmap_set, hs]
        rw [hset1, hset2]
        exact ⟨rfl, rfl, rfl⟩

/-! ## Clearing -/

/-- The chain loop of `hashmap_clear` reads the callbacks of the map only. -/
theorem clear_chain_buckets_irrelevant (map : hashmap W) (b : List (List hashmap_entry))
    (chain : List hashmap_entry) (w : W) :
    clear_chain { map with buckets := b } chain w = clear_chain map chain w := by
  induction chain generalizing w with
  | nil => rfl
  | cons e rest ih =>
    simp only [clear_chain]
    rw [ih]
    rfl

/-- The rounds of `hashmap_clear` for the indices of a suffix of the bucket array. -/
theorem clear_rounds (l : List (List hashmap_entry)) :
    ∀ (pre : List (List hashmap_entry)) (map : hashmap W) (w : W),
      map.buckets = pre ++ l →
      (List.range' pre.length l.length).foldl clear_bucket (map, w) =
        ({ map with buckets := pre ++ List.replicate l.length [] }, clear_chains map l w) := by
  induction l with
  | nil =>
    intro pre map w hb
    simp only [List.length_nil, List.range', List.foldl_nil, List.replicate_zero, clear_chains]
    rw [← hb]
  | cons c l ih =>
    intro pre map w hb
    simp only [List.length_cons, List.range'_succ, List.foldl_cons]
    have hat : bucket_at map pre.length = c := by
      simp only [bucket_at, hb, List.getD_eq_getElem?_getD]
      rw [List.getElem?_append_right (Nat.le_refl _)]
      simp
    have hset : (set_bucket map pre.length []).buckets = (pre ++ [[]]) ++ l := by
      simp [set_bucket, hb]
    have hstep := ih (pre ++ [[]]) (set_bucket map pre.length []) (clear_chain map c w) hset
    simp only [List.length_append, List.length_singleton] at hstep
    simp only [clear_bucket, hat]
    rw [hstep]
    have hcc : clear_chains (set_bucket map pre.length []) l (clear_chain map c w) =
        clear_chains map (c :: l) w := by
      simp only [clear_chains, List.foldl_cons]
      congr 1
      funext w1 chain
      exact clear_chain_buckets_irrelevant map _ chain w1
    rw [hcc]
    simp [set_bucket, List.replicate_succ]

/-- The call `hashmap_clear` on a map whose bucket array has `size` slots: every slot is
empty afterwards, nothing else of the record changes, and the world is the one left by
releasing every node in bucket order, then chain order. -/
theorem hashmap_clear_eq (map : hashmap W) (w : W) (hlen : map.buckets.length = map.size) :
    hashmap_clear map w =
      ({ map with buckets := List.replicate map.size [] }, clear_chains map map.buckets w) := by
  have := clear_rounds map.buckets [] map w rfl
  simp only [List.length_nil, List.nil_append, hlen] at this
  simp only [hashmap_clear, List.range_eq_range']
  exact this

/-- One round of `hashmap_clear` does nothing on a map whose buckets are all empty. -/
theorem clear_bucket_all_empty (map : hashmap W) (w : W) (i : Nat) (he : all_empty map) :
    clear_bucket (map, w) i = (map, w) := by
  have hat : bucket_at map i = [] := by
    simp only [bucket_at, List.getD_eq_getElem?_getD]
    cases hc : map.buckets[i]? with
    | none => rfl
    | some chain => exact he chain (List.getElem?_mem hc)
  have hset : map.buckets.set i [] = map.buckets := by
    apply List.ext_getElem?
    intro j
    rw [List.getElem?_set]
    by_cases hij : i = j
    · subst hij
      by_cases hi : i < map.buckets.length
      · simp only [hi, if_true]
        rw [List.getElem?_eq_getElem hi, he _ (List.getElem_mem hi)]
      · simp only [hi, if_false, if_true]
        exact (List.getElem?_eq_none (Nat.le_of_not_lt hi)).symm
    · simp only [hij, if_false]
  simp only [clear_bucket, hat, clear_chain, set_bucket, hset]

theorem hashmap_clear_all_empty (map : hashmap W) (w : W) (he : all_empty map) :
    hashmap_clear map w = (map, w) := by
  have : ∀ l : List Nat, l.foldl clear_bucket (map, w) = (map, w) := by
    intro l
    induction l with
    | nil => rfl
    | cons i l ih => rw [List.foldl_cons, clear_bucket_all_empty map w i he, ih]
  exact this _

/-! ## The key operations do not read the addresses of the record and the bucket array -/

theorem set_scan_addr_irrelevant (map : hashmap W) (a b : Ptr) (k v : Ptr)
    (chain : List hashmap_entry) (w : W) :
    set_scan { map with addr := a, buckets_addr := b } k v chain w
      = set_scan map k v chain w := by
  induction chain with
  | nil => rfl
  | cons e rest ih =>
    simp only [set_scan, ih]
    rfl

theorem remove_scan_addr_irrelevant (map : hashmap W) (a b : Ptr) (k : Ptr)
    (chain : List hashmap_entry) (w : W) :
    remove_scan { map with addr := a, buckets_addr := b } k chain w
      = remove_scan map k chain w := by
  induction chain with
  | nil => rfl
  | cons e rest ih =>
    simp only [remove_scan, ih]
    rfl

theorem hashmap_set_readdress (map : hashmap W) (a b : Ptr) (k v : Ptr) (w : W) :
    hashmap_set { map with addr := a, buckets_addr := b } k v w =
      ((hashmap_set map k v w).1,
       { (hashmap_set map k v w).2.1 with addr := a, buckets_addr := b },
       (hashmap_set map k v w).2.2) := by
  have hs := set_scan_addr_irrelevant map a b k v
    (bucket_at map (internal_get_bucket_index map k)) w
  simp only [hashmap_set]
  rw [show bucket_at { map with addr := a, buckets_addr := b }
      (internal_get_bucket_index { map with addr := a, buckets_addr := b } k)
    = bucket_at map (internal_get_bucket_index map k) from rfl, hs]
  cases set_scan map k v (bucket_at map (internal_get_bucket_index map k)) w with
  | some r => rfl
  | none =>
    simp only []
    by_cases ha : (map.alloc_data sizeof_hashmap_entry w).1 = NULL
    · simp only [ha, if_true]
    · simp only [ha, if_false]
      rfl

theorem hashmap_remove_readdress (map : hashmap W) (a b : Ptr) (k : Ptr) (w : W) :
    hashmap_remove { map with addr := a, buckets_addr := b } k w =
      ((hashmap_remove map k w).1,
       { (hashmap_remove map k w).2.1 with addr := a, buckets_addr := b },
       (hashmap_remove map k w).2.2) := by
  have hs := remove_scan_addr_irrelevant map a b k
    (bucket_at map (internal_get_bucket_index map k)) w
  simp only [hashmap_remove]
  rw [show bucket_at { map with addr := a, buckets_addr := b }
      (internal_get_bucket_index { map with addr := a, buckets_addr := b } k)
    = bucket_at map (internal_get_bucket_index map k) from rfl, hs]
  cases remove_scan map k (bucket_at map (internal_get_bucket_index map k)) w with
  | some r => rfl
  | none => rfl

theorem run_ops_readdress (ops : List Op) :
    ∀ (map : hashmap W) (a b : Ptr) (w : W),
      run_ops { map with addr := a, buckets_addr := b } ops w =
        ((run_ops map ops w).1,
         { (run_ops map ops w).2.1 with addr := a, buckets_addr := b },
         (run_ops map ops w).2.2) := by
  induction ops with
  | nil => intro map a b w; rfl
  | cons op rest ih =>
    intro map a b w
    cases op with
    | set k v =>
      simp only [run_ops, run_op, hashmap_set_readdress]
      rw [ih]
    | get k =>
      simp only [run_ops, run_op]
      rw [ih]
      rfl
    | get_value k =>
      simp only [run_ops, run_op]
      rw [ih]
      rfl
    | remove k =>
      simp only [run_ops, run_op, hashmap_remove_readdress]
      rw [ih]

/-- Maps that hold the same state answer every sequence of calls alike. -/
theorem run_ops_same_state (m1 m2 : hashmap W) (h : same_state m1 m2) (ops : List Op) (w : W) :
    (run_ops m1 ops w).1 = (run_ops m2 ops w).1 ∧
    same_state (run_ops m1 ops w).2.1 (run_ops m2 ops w).2.1 ∧
    (run_ops m1 ops w).2.2 = (run_ops m2 ops w).2.2 := by
  have hm : m1 = { m2 with addr := m1.addr, buckets_addr := m1.buckets_addr } := by
    obtain ⟨h1, h2, h3, h4, h5, h6, h7, h8⟩ := h
    cases m1
    cases m2
    simp only at h1 h2 h3 h4 h5 h6 h7 h8
    simp only [h1, h2, h3, h4, h5, h6, h7, h8]
  rw [hm, run_ops_readdress]
  exact ⟨rfl, ⟨rfl, rfl, rfl, rfl, rfl, rfl, rfl, rfl⟩, rfl⟩

/-- Claim C9: after `hashmap_clear` on a well-formed map every bucket is empty, the bucket
count, the six callbacks and the two addresses of the record are unchanged, `hashmap_get` of
every key returns `NULL`, and the map holds the same state as any map `hashmap_create`
returns for the same bucket count and callbacks; hence every sequence of set, get,
get_value and remove calls, started in the same world, returns the same results on both and
leaves both in the same state and the world the same. -/
theorem clear_leaves_fresh_map (map : hashmap W) (w : W) (hwf : well_formed map) :
    (hashmap_clear map w).1.buckets = List.replicate map.size [] ∧
    (∀ i, bucket_at (hashmap_clear map w).1 i = []) ∧
    (hashmap_clear map w).1.size = map.size ∧
    (hashmap_clear map w).1.hash_key = map.hash_key ∧
    (hashmap_clear map w).1.compare_key = map.compare_key ∧
    (hashmap_clear map w).1.alloc_data = map.alloc_data ∧
    (hashmap_clear map w).1.free_data = map.free_data ∧
    (hashmap_clear map w).1.free_key = map.free_key ∧
    (hashmap_clear map w).1.free_value = map.free_value ∧
    (hashmap_clear map w).1.addr = map.addr ∧
    (hashmap_clear map w).1.buckets_addr = map.buckets_addr ∧
    (∀ k, hashmap_get (hashmap_clear map w).1 k = none) ∧
    ∀ (w0 w1 : W) (fresh : hashmap W),
      hashmap_create map.size (some map.hash_key) (some map.compare_key)
        (some map.alloc_data) (some map.free_data) map.free_key map.free_value w0
        = create_result.returned (some fresh) w1 →
      same_state (hashmap_clear map w).1 fresh ∧
      ∀ (ops : List Op) (w2 : W),
        (run_ops (hashmap_clear map w).1 ops w2).1 = (run_ops fresh ops w2).1 ∧
        same_state (run_ops (hashmap_clear map w).1 ops w2).2.1 (run_ops fresh ops w2).2.1 ∧
        (run_ops (hashmap_clear map w).1 ops w2).2.2 = (run_ops fresh ops w2).2.2 := by
  rw [hashmap_clear_eq map w hwf.2]
  refine ⟨rfl, fun i => bucket_at_replicate _ map.size rfl i, rfl, rfl, rfl, rfl, rfl, rfl,
    rfl, rfl, rfl, (empty_map_facts _ map.size rfl).2.2, ?_⟩
  intro w0 w1 fresh hc
  obtain ⟨_, _, _, _, hm⟩ := hashmap_create_some _ _ _ _ _ _ _ w0 w1 fresh hc
  have hss : same_state
      ({ map with buckets := List.replicate map.size [] } : hashmap W) fresh := by
    rw [hm]
    exact ⟨rfl, rfl, rfl, rfl, rfl, rfl, rfl, rfl⟩
  exact ⟨hss, fun ops w2 => run_ops_same_state _ _ hss ops w2⟩

/-- Claim C10: `hashmap_clear` on a map whose buckets are all empty returns the map and the
world as they were, so none of `free_key`, `free_value`, `free_data` was invoked; and on a
well-formed map a second `hashmap_clear` changes neither the map nor the world the first one
left. -/
theorem clear_idempotent (map : hashmap W) (w : W) :
    (all_empty map → hashmap_clear map w = (map, w)) ∧
    (well_formed map →
      hashmap_clear (hashmap_clear map w).1 (hashmap_clear map w).2 = hashmap_clear map w) := by
  refine ⟨hashmap_clear_all_empty map w, ?_⟩
  intro hwf
  apply hashmap_clear_all_empty
  rw [hashmap_clear_eq map w hwf.2]
  intro chain hc
  exact List.eq_of_mem_replicate hc

/-! ## Iteration without removal -/

theorem heap_holds_congr (heap1 heap2 : node_heap) (rest : List hashmap_entry) :
    ∀ p, (∀ e ∈ rest, heap1 e.addr = heap2 e.addr) → heap_holds heap1 rest p →
      heap_holds heap2 rest p := by
  induction rest with
  | nil => intro p _ h; exact h
  | cons e rest ih =>
    intro p hag h
    obtain ⟨h1, h2, h3, h4, h5⟩ := h
    have he : heap1 p = heap2 p := by rw [h1]; exact hag e (by simp)
    refine ⟨h1, h2, by rw [← he]; exact h3, by rw [← he]; exact h4, ?_⟩
    rw [← he]
    exact ih _ (fun x hx => hag x (by simp [hx])) h5

/-- The memory built from a chain whose nodes lie at distinct non-null addresses holds that
chain. -/
theorem chain_to_heap_holds (chain : List hashmap_entry)
    (hnd : (chain.map (fun e => e.addr)).Nodup) (hnn : ∀ e ∈ chain, e.addr ≠ NULL) :
    heap_holds (chain_to_heap chain) chain (head_addr chain) := by
  induction chain with
  | nil => rfl
  | cons e rest ih =>
    rw [List.map_cons, List.nodup_cons] at hnd
    have ih1 := ih hnd.2 (fun x hx => hnn x (by simp [hx]))
    refine ⟨rfl, hnn e (by simp), by simp [chain_to_heap, head_addr],
      by simp [chain_to_heap, head_addr], ?_⟩
    have hnext : (chain_to_heap (e :: rest) (head_addr (e :: rest))).next = head_addr rest := by
      simp [chain_to_heap, head_addr]
    rw [hnext]
    apply heap_holds_congr (chain_to_heap rest) _ rest _ _ ih1
    intro x hx
    have hne : x.addr ≠ e.addr := by
      intro heq
      apply hnd.1
      rw [← heq]
      exact List.mem_map.2 ⟨x, hx, rfl⟩
    simp [chain_to_heap, hne]

/-- Reading a chain back from a memory that holds it. -/
theorem heap_to_chain_holds (heap : node_heap) (rest : List hashmap_entry) :
    ∀ (fuel : Nat) (p : Ptr), heap_holds heap rest p → rest.length ≤ fuel →
      heap_to_chain heap fuel p = rest := by
  induction rest with
  | nil =>
    intro fuel p h _
    cases fuel with
    | zero => rfl
    | succ n => simp only [heap_to_chain, show p = NULL from h, if_true]
  | cons e rest ih =>
    intro fuel p h hf
    obtain ⟨h1, h2, h3, h4, h5⟩ := h
    cases fuel with
    | zero => simp at hf
    | succ n =>
      simp only [heap_to_chain, h2, if_false]
      rw [ih n _ h5 (by simpa using hf), h3, h4, h1]

/-- The chain loop under a callback that never sets `remove`: the memory and the bucket head
are left alone, and the callback runs over the nodes in chain order until it clears
`proceed`. -/
theorem loop_chain_no_remove (map : hashmap W) (callback : loop_callback W) (head : Ptr)
    (hcb : ∀ k v w, (callback k v w).1.2 = false) (rest : List hashmap_entry) :
    ∀ (fuel : Nat) (s : loop_state W), heap_holds s.heap rest s.entry → rest.length < fuel →
      ∃ s1, loop_chain map callback head fuel s
          = some (s1, (visit_until_stop callback rest s.world).2) ∧
        s1.heap = s.heap ∧ s1.bucket = s.bucket ∧
        s1.world = (visit_until_stop callback rest s.world).1 := by
  induction rest with
  | nil =>
    intro fuel s h hf
    cases fuel with
    | zero => simp at hf
    | succ n =>
      refine ⟨s, ?_, rfl, rfl, rfl⟩
      simp only [loop_chain, show s.entry = NULL from h, if_true, visit_until_stop]
  | cons e rest ih =>
    intro fuel s h hf
    obtain ⟨h1, h2, h3, h4, h5⟩ := h
    cases fuel with
    | zero => simp at hf
    | succ n =>
      have hr := hcb e.key e.value s.world
      by_cases hp : (callback e.key e.value s.world).1.1 = true
      · obtain ⟨s1, g1, g2, g3, g4⟩ := ih n
          { s with prev := s.entry, entry := (s.heap s.entry).next,
                   world := (callback e.key e.value s.world).2 } h5 (by simpa using hf)
        refine ⟨s1, ?_, g2, g3, ?_⟩
        · simp only [loop_chain, h2, if_false, h3, h4, hr, hp, if_true, visit_until_stop]
          exact g1
        · simp only [visit_until_stop, hp, if_true]
          exact g4
      · refine ⟨{ s with prev := s.entry, entry := (s.heap s.entry).next,
                         world := (callback e.key e.value s.world).2 }, ?_, rfl, rfl, ?_⟩
        · simp only [loop_chain, h2, if_false, h3, h4, hr, hp, visit_until_stop]
          simp
        · simp only [visit_until_stop, hp]
          simp

theorem set_bucket_self (map : hashmap W) (i : Nat) :
    set_bucket map i (bucket_at map i) = map := by
  have hset : map.buckets.set i (bucket_at map i) = map.buckets := by
    apply List.ext_getElem?
    intro j
    rw [List.getElem?_set]
    by_cases hij : i = j
    · subst hij
      by_cases hi : i < map.buckets.length
      · simp only [hi, if_true, bucket_at, List.getD_eq_getElem?_getD]
        rw [List.getElem?_eq_getElem hi]
        rfl
      · simp only [hi, if_false, if_true]
        exact (List.getElem?_eq_none (Nat.le_of_not_lt hi)).symm
    · simp only [hij, if_false]
  simp only [set_bucket, hset]

theorem nodes_distinct_bucket_at (map : hashmap W) (hn : nodes_distinct map) (i : Nat) :
    ((bucket_at map i).map (fun e => e.addr)).Nodup ∧ ∀ e ∈ bucket_at map i, e.addr ≠ NULL := by
  simp only [bucket_at, List.getD_eq_getElem?_getD]
  cases hc : map.buckets[i]? with
  | none => simp
  | some chain => exact hn chain (List.getElem?_mem hc)

/-- One bucket round under a callback that never sets `remove`. -/
theorem loop_bucket_no_remove (map : hashmap W) (callback : loop_callback W)
    (hcb : ∀ k v w, (callback k v w).1.2 = false) (hn : nodes_distinct map) (i : Nat) (w : W) :
    loop_bucket map callback i w =
      some (map, (visit_until_stop callback (bucket_at map i) w).2,
        (visit_until_stop callback (bucket_at map i) w).1) := by
  obtain ⟨hnd, hnn⟩ := nodes_distinct_bucket_at map hn i
  have hh := chain_to_heap_holds (bucket_at map i) hnd hnn
  obtain ⟨s1, g1, g2, g3, g4⟩ := loop_chain_no_remove map callback
    (head_addr (bucket_at map i)) hcb (bucket_at map i) ((bucket_at map i).length + 1)
    { heap := chain_to_heap (bucket_at map i)
      bucket := head_addr (bucket_at map i)
      entry := head_addr (bucket_at map i)
      prev := head_addr (bucket_at map i)
      world := w } hh (Nat.lt_succ_self _)
  simp only [loop_bucket, g1, g2, g3, g4]
  rw [heap_to_chain_holds _ _ _ _ hh (Nat.le_refl _), set_bucket_self]

theorem visit_until_stop_append (callback : loop_callback W) (l1 l2 : List hashmap_entry) :
    ∀ w, visit_until_stop callback (l1 ++ l2) w =
      if (visit_until_stop callback l1 w).2 then
        visit_until_stop callback l2 (visit_until_stop callback l1 w).1
      else visit_until_stop callback l1 w := by
  induction l1 with
  | nil => intro w; simp [visit_until_stop]
  | cons e rest ih =>
    intro w
    by_cases hp : (callback e.key e.value w).1.1 = true
    · simp only [List.cons_append, visit_until_stop, hp, if_true]
      exact ih _
    · simp [visit_until_stop, hp]

/-- The bucket rounds under a callback that never sets `remove`. -/
theorem loop_buckets_no_remove (map : hashmap W) (callback : loop_callback W)
    (hcb : ∀ k v w, (callback k v w).1.2 = false) (hn : nodes_distinct map) (is : List Nat) :
    ∀ w, loop_buckets callback is map w =
      some (map, (visit_until_stop callback (is.flatMap (bucket_at map)) w).1) := by
  induction is with
  | nil => intro w; rfl
  | cons i rest ih =>
    intro w
    simp only [loop_buckets, loop_bucket_no_remove map callback hcb hn i w, List.flatMap_cons]
    rw [visit_until_stop_append]
    by_cases hp : (visit_until_stop callback (bucket_at map i) w).2 = true
    · simp only [hp, if_true]
      exact ih _
    · simp [hp]

theorem range_flatMap_getD (l : List (List hashmap_entry)) :
    (List.range l.length).flatMap (fun i => l.getD i []) = l.flatten := by
  induction l with
  | nil => rfl
  | cons c t ih =>
    rw [List.length_cons, List.range_succ_eq_map, List.flatMap_cons, List.flatten_cons, ← ih]
    congr 1
    simp [List.flatMap_def, List.map_map, Function.comp_def]

/-- The function `hashmap_loop` under a callback that never sets `remove`: the map is
returned as it was, and the callback has run over the entries in bucket order, then chain
order, until it cleared `proceed`. -/
theorem hashmap_loop_no_remove (map : hashmap W) (callback : loop_callback W) (w : W)
    (hwf : well_formed map) (hn : nodes_distinct map)
    (hcb : ∀ k v w, (callback k v w).1.2 = false) :
    hashmap_loop map callback w =
      some (map, (visit_until_stop callback (live_entries map) w).1) := by
  simp only [hashmap_loop, loop_buckets_no_remove map callback hcb hn, live_entries]
  rw [← hwf.2]
  have h1 : (List.range map.buckets.length).flatMap (bucket_at map) = map.buckets.flatten :=
    range_flatMap_getD map.buckets
  rw [h1]

theorem visit_until_stop_always (callback : loop_callback W)
    (hcb : ∀ k v w, (callback k v w).1.1 = true) (entries : List hashmap_entry) :
    ∀ w, visit_until_stop callback entries w = (visit_all callback entries w, true) := by
  induction entries with
  | nil => intro w; rfl
  | cons e rest ih =>
    intro w
    simp only [visit_until_stop, hcb, if_true, visit_all, List.foldl_cons]
    exact ih _

theorem visit_all_count (callback : loop_callback W) (count : W → Nat)
    (hinc : ∀ k v w1, count (callback k v w1).2 = count w1 + 1) (entries : List hashmap_entry) :
    ∀ w, count (visit_all callback entries w) = count w + entries.length := by
  induction entries with
  | nil => intro w; rfl
  | cons e rest ih =>
    intro w
    simp only [visit_all, List.foldl_cons, List.length_cons]
    have := ih (callback e.key e.value w).2
    simp only [visit_all] at this
    rw [this, hinc]
    omega

/-- A callback that counts its invocations and clears `proceed` on invocation number `n` is
run on the entries up to that invocation and on no entry after it. -/
theorem visit_until_stop_count (callback : loop_callback W) (count : W → Nat) (n : Nat)
    (hinc : ∀ k v w1, count (callback k v w1).2 = count w1 + 1)
    (hstop : ∀ k v w1, (callback k v w1).1.1 = decide (count w1 + 1 ≠ n))
    (entries : List hashmap_entry) :
    ∀ w, count w < n →
      (visit_until_stop callback entries w).1
        = visit_all callback (entries.take (n - count w)) w := by
  induction entries with
  | nil => intro w _; simp [visit_until_stop, visit_all]
  | cons e rest ih =>
    intro w hlt
    obtain ⟨m, hm⟩ : ∃ m, n - count w = m + 1 := ⟨n - count w - 1, by omega⟩
    rw [hm, List.take_succ_cons]
    by_cases hlast : count w + 1 = n
    · have hp : (callback e.key e.value w).1.1 = false := by
        rw [hstop]; simp [hlast]
      have hm0 : m = 0 := by omega
      simp [visit_until_stop, hp, hm0, visit_all]
    · have hp : (callback e.key e.value w).1.1 = true := by
        rw [hstop]; simp [hlast]
      simp only [visit_until_stop, hp, if_true, visit_all, List.foldl_cons]
      have hlt1 : count (callback e.key e.value w).2 < n := by rw [hinc]; omega
      have := ih (callback e.key e.value w).2 hlt1
      rw [this, hinc]
      have hm1 : n - (count w + 1) = m := by omega
      rw [hm1]
      rfl

/-! ## Iteration: completeness and early termination -/

/-- Claim C11: on a well-formed map whose nodes lie at distinct non-null addresses, with a
callback that never sets `remove` and never clears `proceed`, `hashmap_loop` returns, the
map afterwards is the map before, and the world is the one left by one callback invocation
per live entry, with that entry's key and value, in the order bucket 0, 1, ..., `size - 1`
and within a bucket from the head of the chain to its tail. -/
theorem loop_visits_every_entry (map : hashmap W) (callback : loop_callback W) (w : W)
    (hwf : well_formed map) (hn : nodes_distinct map)
    (hcb : ∀ k v w1, (callback k v w1).1 = (true, false)) :
    hashmap_loop map callback w = some (map, visit_all callback (live_entries map) w) := by
  rw [hashmap_loop_no_remove map callback w hwf hn (fun k v w1 => by rw [hcb])]
  rw [visit_until_stop_always callback (fun k v w1 => by rw [hcb])]

/-- Claim C12: on a well-formed map whose nodes lie at distinct non-null addresses, with a
callback that never sets `remove`, counts its invocations in the world (`count` starts at 0
and grows by one with every invocation) and clears `proceed` on invocation number `n ≥ 1`,
`hashmap_loop` returns, the map afterwards is the map before (every entry still present with
its value), the world is the one left by one invocation per entry for the first `n` entries
of the bucket-then-chain order and no other, and the number of invocations is the smaller of
`n` and the number of live entries. -/
theorem loop_stops_after_nth (map : hashmap W) (callback : loop_callback W) (w : W)
    (hwf : well_formed map) (hn : nodes_distinct map)
    (count : W → Nat) (n : Nat) (hpos : 1 ≤ n) (hstart : count w = 0)
    (hinc : ∀ k v w1, count (callback k v w1).2 = count w1 + 1)
    (hrem : ∀ k v w1, (callback k v w1).1.2 = false)
    (hstop : ∀ k v w1, (callback k v w1).1.1 = decide (count w1 + 1 ≠ n)) :
    hashmap_loop map callback w
        = some (map, visit_all callback ((live_entries map).take n) w) ∧
    count (visit_all callback ((live_entries map).take n) w)
        = min n (live_entries map).length := by
  refine ⟨?_, ?_⟩
  · rw [hashmap_loop_no_remove map callback w hwf hn hrem]
    have := visit_until_stop_count callback count n hinc hstop (live_entries map) w
      (by omega)
    rw [this, hstart, Nat.sub_zero]
  · rw [visit_all_count callback count hinc, hstart, List.length_take]
    omega

/-! ## Iteration with removal, on concrete maps -/

/-- Claim C13, the code at three inputs.  On the example map (bucket 1 holds the nodes 30 and
40 with the keys 5 and 9, bucket 2 the node 50 with the key 2):

* a callback that sets `remove` for the key 2 only unlinks the node 50, and no destructor and
  no `free_data` is called at all;
* a callback that sets `remove` for the key 5 only unlinks the node 30 without releasing it,
  releases key and value of its successor and passes the successor, node 40, to `free_data`;
  the successor stays in the chain with `NULL` key and value and is visited as such;
* a callback that always sets `remove` leaves the node 40 in bucket 1. -/
theorem loop_removal_on_example :
    (hashmap_loop demo_loop_map (recording_callback (fun k _ => decide (k = 2)) 0) []).map
        (fun r => (r.1.buckets, r.2))
      = some ([[], [⟨30, 5, 50⟩, ⟨40, 9, 90⟩], [], []],
          [LoopEvent.visit 5 50, LoopEvent.visit 9 90, LoopEvent.visit 2 20]) ∧
    (hashmap_loop demo_loop_map (recording_callback (fun k _ => decide (k = 5)) 0) []).map
        (fun r => (r.1.buckets, r.2))
      = some ([[], [⟨40, 0, 0⟩], [⟨50, 2, 20⟩], []],
          [LoopEvent.visit 5 50, LoopEvent.free_key 9, LoopEvent.free_value 90,
           LoopEvent.free_data 40, LoopEvent.visit 0 0, LoopEvent.visit 2 20]) ∧
    (hashmap_loop demo_loop_map (recording_callback (fun _ _ => true) 0) []).map
        (fun r => (r.1.buckets, r.2))
      = some ([[], [⟨40, 0, 0⟩], [], []],
          [LoopEvent.visit 5 50, LoopEvent.free_key 9, LoopEvent.free_value 90,
           LoopEvent.free_data 40, LoopEvent.visit 0 0, LoopEvent.visit 2 20]) := by
  decide!

/-- Claim C14, the code at an input.  On the example map a callback that sets `remove` and
clears `proceed` on its first invocation makes `hashmap_loop` unlink the first visited node,
30, without releasing its key 5, its value 50 or the node; key 9 and value 90 of the
successor are released instead, the successor node 40 goes to `free_data`, and it stays in
the chain with `NULL` key and value.  The iteration then halts. -/
theorem loop_remove_and_stop_on_example :
    (hashmap_loop demo_loop_map (remove_and_stop_callback 1) []).map
        (fun r => (r.1.buckets, r.2))
      = some ([[], [⟨40, 0, 0⟩], [⟨50, 2, 20⟩], []],
          [LoopEvent.visit 5 50, LoopEvent.free_key 9, LoopEvent.free_value 90,
           LoopEvent.free_data 40]) := by
  decide!

/-! ## Lookup -/

theorem find_eq_spec_first_match (equal : Ptr → Ptr → Bool) (key : Ptr)
    (chain : List hashmap_entry) :
    chain.find? (fun e => equal e.key key) = spec_first_match equal key chain := by
  induction chain with
  | nil => rfl
  | cons e rest ih =>
    by_cases h : equal e.key key = true
    · simp [List.find?_cons, spec_first_match, h]
    · simp only [List.find?_cons, spec_first_match, h]
      simpa using ih

/-- A lookup on a chain either finds the first node with a matching key or finds none in a
chain without a match. -/
theorem find_first_match (p : hashmap_entry → Bool) (chain : List hashmap_entry) :
    (∃ pre e post, chain = pre ++ e :: post ∧ (∀ x ∈ pre, p x = false) ∧ p e = true ∧
      chain.find? p = some e) ∨
    ((∀ x ∈ chain, p x = false) ∧ chain.find? p = none) := by
  induction chain with
  | nil => right; simp
  | cons a rest ih =>
    by_cases ha : p a = true
    · left
      exact ⟨[], a, rest, rfl, by simp, ha, by simp [List.find?_cons, ha]⟩
    · have ha2 : p a = false := by simpa using ha
      rcases ih with ⟨pre, e, post, h1, h2, h3, h4⟩ | ⟨h1, h2⟩
      · left
        refine ⟨a :: pre, e, post, by simp [h1], ?_, h3, by simp [List.find?_cons, ha2, h4]⟩
        intro x hx
        rcases List.mem_cons.1 hx with rfl | hx
        · exact ha2
        · exact h2 x hx
      · right
        refine ⟨?_, by simp [List.find?_cons, ha2, h2]⟩
        intro x hx
        rcases List.mem_cons.1 hx with rfl | hx
        · exact ha2
        · exact h1 x hx

/-- Claim C15: `hashmap_get_value map k` is the value field of the entry `hashmap_get map k`
returns when there is one and `NULL` when there is none; and `hashmap_get map k` is what the
linear scan of the spec gives on the chain of bucket `hash(k) mod size`: the first entry of
that chain whose key compares equal to `k`, or `NULL` when the chain has none. -/
theorem get_value_agrees_with_get (map : hashmap W) (k : Ptr) :
    (∀ e, hashmap_get map k = some e → hashmap_get_value map k = e.value) ∧
    (hashmap_get map k = none → hashmap_get_value map k = NULL) ∧
    hashmap_get map k
      = spec_first_match map.compare_key k (bucket_at map (map.hash_key k % map.size)) ∧
    ((∃ pre e post, bucket_at map (map.hash_key k % map.size) = pre ++ e :: post ∧
        (∀ x ∈ pre, map.compare_key x.key k = false) ∧ map.compare_key e.key k = true ∧
        hashmap_get map k = some e) ∨
      ((∀ x ∈ bucket_at map (map.hash_key k % map.size), map.compare_key x.key k = false) ∧
        hashmap_get map k = none)) := by
  refine ⟨?_, ?_, ?_, ?_⟩
  · intro e he
    simp only [hashmap_get_value, he]
  · intro he
    simp only [hashmap_get_value, he]
  · exact find_eq_spec_first_match map.compare_key k _
  · exact find_first_match (fun e => map.compare_key e.key k) _

theorem get_scan_traced_eq (map : hashmap W) (key : Ptr) (chain : List hashmap_entry) :
    ∀ log, get_scan_traced map key chain log =
      (chain.find? (fun e => map.compare_key e.key key),
       log ++ (scanned_entries map key chain).map (fun e => Call.compare_key e.key key)) := by
  induction chain with
  | nil => intro log; simp [get_scan_traced, scanned_entries]
  | cons e rest ih =>
    intro log
    by_cases h : map.compare_key e.key key = true
    · simp [get_scan_traced, scanned_entries, List.find?_cons, h]
    · simp only [get_scan_traced, scanned_entries, List.find?_cons, h]
      rw [ih]
      simp

/-- Claim C16: `hashmap_get` and `hashmap_get_value`, written in state-passing form, return
the map and the world they were given; the calls they make are one call of `hash_key` on the
key followed by calls of `compare_key` on the nodes of the bucket up to the first match; and
their results do not depend on `alloc_data`, `free_data`, `free_key`, `free_value`. -/
theorem lookup_is_read_only (map : hashmap W) (k : Ptr) (w : W) :
    hashmap_get_traced map k w =
      (hashmap_get map k, map, w,
       Call.hash_key k ::
         (scanned_entries map k (bucket_at map (map.hash_key k % map.size))).map
           (fun e => Call.compare_key e.key k)) ∧
    hashmap_get_value_traced map k w =
      (hashmap_get_value map k, map, w,
       Call.hash_key k ::
         (scanned_entries map k (bucket_at map (map.hash_key k % map.size))).map
           (fun e => Call.compare_key e.key k)) ∧
    (hashmap_get_traced map k w).2.2.2.filter Call.is_hash_key = [Call.hash_key k] ∧
    (∀ (a : Nat → W → Ptr × W) (f : Ptr → W → W) (fk fv : Option (Ptr → W → W)),
      hashmap_get
          { map with alloc_data := a, free_data := f, free_key := fk, free_value := fv } k
        = hashmap_get map k ∧
      hashmap_get_value
          { map with alloc_data := a, free_data := f, free_key := fk, free_value := fv } k
        = hashmap_get_value map k) := by
  have h1 : hashmap_get_traced map k w =
      (hashmap_get map k, map, w,
       Call.hash_key k ::
         (scanned_entries map k (bucket_at map (map.hash_key k % map.size))).map
           (fun e => Call.compare_key e.key k)) := by
    simp only [hashmap_get_traced, get_scan_traced_eq, hashmap_get, internal_get_bucket_index]
    rfl
  refine ⟨h1, ?_, ?_, fun a f fk fv => ⟨rfl, rfl⟩⟩
  · simp only [hashmap_get_value_traced, h1, hashmap_get_value]
    cases hashmap_get map k <;> rfl
  · rw [h1]
    simp only [List.filter_cons, Call.is_hash_key, if_true]
    congr 1
    rw [List.filter_eq_nil_iff]
    intro c hc
    obtain ⟨e, _, rfl⟩ := List.mem_map.1 hc
    simp [Call.is_hash_key]

/-! ## The invariants of a map -/

/-- Entries that sit in the bucket of their hash, under an equality that respects the hash,
have unequal keys across buckets. -/
theorem cross_unique_of_placement (map : hashmap W) (hp : bucket_placement map)
    (hhash : hash_consistent map) : cross_unique map := by
  intro i j hij e1 h1 e2 h2
  cases hc : map.compare_key e1.key e2.key with
  | false => rfl
  | true =>
    exfalso
    apply hij
    rw [← hp i e1 h1, ← hp j e2 h2, hhash _ _ hc]

/-- The call `hashmap_remove` writes the bucket array only. -/
theorem hashmap_remove_fields (map : hashmap W) (k : Ptr) (w : W) :
    ∃ b, (hashmap_remove map k w).2.1 = { map with buckets := b } := by
  rcases hashmap_remove_cases map k w with ⟨pre, e, post, _, _, _, h4⟩ | ⟨_, h4⟩
  · exact ⟨_, by rw [h4]; rfl⟩
  · exact ⟨map.buckets, by rw [h4]⟩

theorem hashmap_remove_well_formed (map : hashmap W) (k : Ptr) (w : W)
    (hwf : well_formed map) : well_formed (hashmap_remove map k w).2.1 := by
  rcases hashmap_remove_cases map k w with ⟨pre, e, post, _, _, _, h4⟩ | ⟨_, h4⟩
  · rw [h4]; exact well_formed_set_bucket map _ _ hwf
  · rw [h4]; exact hwf

theorem hashmap_remove_bucket_placement (map : hashmap W) (k : Ptr) (w : W)
    (hp : bucket_placement map) : bucket_placement (hashmap_remove map k w).2.1 := by
  rcases hashmap_remove_cases map k w with ⟨pre, e, post, h1, _, _, h4⟩ | ⟨_, h4⟩
  · rw [h4]
    apply bucket_placement_set_bucket map _ _ hp
    intro x hx
    have hold := hp (internal_get_bucket_index map k)
    rw [h1] at hold
    rcases List.mem_append.1 hx with hx | hx
    · exact hold x (List.mem_append_left _ hx)
    · exact hold x (List.mem_append_right _ (List.mem_cons_of_mem _ hx))
  · rw [h4]; exact hp

theorem hashmap_remove_keys_unique (map : hashmap W) (k : Ptr) (w : W)
    (hu : keys_unique map) : keys_unique (hashmap_remove map k w).2.1 := by
  rcases hashmap_remove_cases map k w with ⟨pre, e, post, h1, _, _, h4⟩ | ⟨_, h4⟩
  · rw [h4]
    apply keys_unique_set_bucket map _ _ hu
    have hold := hu (internal_get_bucket_index map k)
    rw [h1] at hold
    unfold chain_unique at hold ⊢
    rw [List.pairwise_append, List.pairwise_cons] at hold
    rw [List.pairwise_append]
    exact ⟨hold.1, hold.2.1.2, fun x hx y hy => hold.2.2 x hx y (List.mem_cons_of_mem _ hy)⟩
  · rw [h4]; exact hu

/-- Claim C17: with an equality callback that is an equivalence relation under which equal
keys hash identically, the map a successful `hashmap_create` returns for `n` buckets
satisfies, and `hashmap_set`, `hashmap_remove` and `hashmap_clear` each preserve, the
conjunction of (1) the bucket count is positive and equal to `n`, (2) every entry reachable
from bucket `i` has `hash(key) mod size = i`, and (3) no two distinct entries of the map have
equal keys. -/
theorem invariants_preserved (n : Nat) :
    (∀ (h : Ptr → Nat) (c : Ptr → Ptr → Bool) (a : Nat → W → Ptr × W) (f : Ptr → W → W)
        (fk fv : Option (Ptr → W → W)) (w0 w1 : W) (m : hashmap W),
      hashmap_create n (some h) (some c) (some a) (some f) fk fv w0
        = create_result.returned (some m) w1 →
      map_invariant m n) ∧
    (∀ (map : hashmap W), callbacks_lawful map → map_invariant map n →
      ∀ (k v : Ptr) (w : W),
        map_invariant (hashmap_set map k v w).2.1 n ∧
        map_invariant (hashmap_remove map k w).2.1 n ∧
        map_invariant (hashmap_clear map w).1 n) := by
  refine ⟨?_, ?_⟩
  · intro h c a f fk fv w0 w1 m hc
    obtain ⟨hpos, _, _, _, hm⟩ := hashmap_create_some n h c a f fk fv w0 w1 m hc
    have hb : m.buckets = List.replicate n [] := by rw [hm]
    obtain ⟨hp, hu, _⟩ := empty_map_facts m n hb
    refine ⟨?_, hp, hu, ?_⟩
    · rw [hm]
      exact ⟨hpos, rfl, List.length_replicate _ _⟩
    · intro i j _ e1 h1
      rw [bucket_at_replicate m n hb i] at h1
      exact absurd h1 (List.not_mem_nil e1)
  · intro map hl hinv k v w
    obtain ⟨⟨hpos, hsize, hlen⟩, hp, hu, _⟩ := hinv
    have hwf : well_formed map := ⟨hpos, hlen⟩
    refine ⟨?_, ?_, ?_⟩
    · obtain ⟨b, hb⟩ := hashmap_set_fields map k v w
      have hwf1 := hashmap_set_well_formed map k v w hwf
      have hp1 := hashmap_set_bucket_placement map k v w hp
      have hu1 := hashmap_set_keys_unique map k v w hl.2.2.1 hu
      have hh1 : hash_consistent (hashmap_set map k v w).2.1 := by rw [hb]; exact hl.2.2.2
      have hs1 : (hashmap_set map k v w).2.1.size = n := by rw [hb]; exact hsize
      exact ⟨⟨hwf1.1, hs1, hwf1.2⟩, hp1, hu1, cross_unique_of_placement _ hp1 hh1⟩
    · obtain ⟨b, hb⟩ := hashmap_remove_fields map k w
      have hwf1 := hashmap_remove_well_formed map k w hwf
      have hp1 := hashmap_remove_bucket_placement map k w hp
      have hu1 := hashmap_remove_keys_unique map k w hu
      have hh1 : hash_consistent (hashmap_remove map k w).2.1 := by rw [hb]; exact hl.2.2.2
      have hs1 : (hashmap_remove map k w).2.1.size = n := by rw [hb]; exact hsize
      exact ⟨⟨hwf1.1, hs1, hwf1.2⟩, hp1, hu1, cross_unique_of_placement _ hp1 hh1⟩
    · rw [hashmap_clear_eq map w hlen]
      obtain ⟨hp1, hu1, _⟩ := empty_map_facts
        ({ map with buckets := List.replicate map.size [] } : hashmap W) map.size rfl
      refine ⟨⟨hpos, hsize, ?_⟩, hp1, hu1, ?_⟩
      · exact List.length_replicate _ _
      · intro i j _ e1 h1
        rw [bucket_at_replicate _ map.size rfl i] at h1
        exact absurd h1 (List.not_mem_nil e1)

/-! ## The shape of a chain after `hashmap_set` -/

theorem set_scan_at_first_match (map : hashmap W) (k v : Ptr) (w : W)
    (pre post : List hashmap_entry) (e : hashmap_entry)
    (hpre : ∀ x ∈ pre, map.compare_key x.key k = false)
    (he : map.compare_key e.key k = true) :
    set_scan map k v (pre ++ e :: post) w =
      some (pre ++ { addr := e.addr, key := k, value := v } :: post,
        { addr := e.addr, key := k, value := v },
        release_value map e.value (release_key map e.key w)) := by
  induction pre with
  | nil =>
    simp only [List.nil_append, set_scan, he, if_true]
    rfl
  | cons a pre ih =>
    have ha : map.compare_key a.key k = false := hpre a (by simp)
    have hrec := ih (fun x hx => hpre x (by simp [hx]))
    rw [List.cons_append, set_scan, hrec]
    simp [ha]

/-- Claim C18 as stated fails: the example map holds the key 5 with the value `NULL`, the
callback `free_value` is present, and `hashmap_set` with the key 5 calls `free_key` on the
old key and nothing else; the old value is not passed to `free_value`. -/
theorem set_skips_null_old_value :
    null_value_map.free_value.isSome = true ∧
    hashmap_get null_value_map 5 = some ⟨30, 5, 0⟩ ∧
    (hashmap_set null_value_map 5 55 demo_world).2.2.trace = [Event.free_key 5] ∧
    (hashmap_set null_value_map 5 55 demo_world).2.2
      ≠ rec_free_value 0 (rec_free_key 5 demo_world) := by
  refine ⟨rfl, by decide, by decide, by decide⟩

/-- Claim C18, amended: on a well-formed map, when the first entry of bucket
`hash(k) mod size` with a key equal to `k` is `e`, `hashmap_set map k v` returns that node,
the chain keeps its length and its entries in their positions except that `e` now holds
`(k, v)`, and the world is the one left by passing the old key to `free_key` and then the
old value to `free_value`, each only when the callback is present and the pointer is not
`NULL`.  When no entry matches and the allocator answers with a non-null node, the chain is
the old chain with the new node `(k, v)` appended and that node is returned.  All other
buckets are unchanged. -/
theorem set_chain_shape (map : hashmap W) (k v : Ptr) (w : W) (hwf : well_formed map) :
    (∀ pre e post, bucket_at map (map.hash_key k % map.size) = pre ++ e :: post →
      (∀ x ∈ pre, map.compare_key x.key k = false) → map.compare_key e.key k = true →
      (hashmap_set map k v w).1 = some { addr := e.addr, key := k, value := v } ∧
      bucket_at (hashmap_set map k v w).2.1 (map.hash_key k % map.size)
        = pre ++ { addr := e.addr, key := k, value := v } :: post ∧
      (bucket_at (hashmap_set map k v w).2.1 (map.hash_key k % map.size)).length
        = (bucket_at map (map.hash_key k % map.size)).length ∧
      (hashmap_set map k v w).2.2 = release_value map e.value (release_key map e.key w)) ∧
    ((∀ x ∈ bucket_at map (map.hash_key k % map.size), map.compare_key x.key k = false) →
      (map.alloc_data sizeof_hashmap_entry w).1 ≠ NULL →
      (hashmap_set map k v w).1
        = some { addr := (map.alloc_data sizeof_hashmap_entry w).1, key := k, value := v } ∧
      bucket_at (hashmap_set map k v w).2.1 (map.hash_key k % map.size)
        = bucket_at map (map.hash_key k % map.size) ++
          [{ addr := (map.alloc_data sizeof_hashmap_entry w).1, key := k, value := v }] ∧
      (hashmap_set map k v w).2.2 = (map.alloc_data sizeof_hashmap_entry w).2) ∧
    (∀ j, j ≠ map.hash_key k % map.size →
      bucket_at (hashmap_set map k v w).2.1 j = bucket_at map j) := by
  have hlt : map.hash_key k % map.size < map.buckets.length := bucket_index_lt map k hwf
  refine ⟨?_, ?_, ?_⟩
  · intro pre e post hb hpre he
    have hs := set_scan_at_first_match map k v w pre post e hpre he
    have hset : hashmap_set map k v w =
        (some { addr := e.addr, key := k, value := v },
         set_bucket map (map.hash_key k % map.size)
           (pre ++ { addr := e.addr, key := k, value := v } :: post),
         release_value map e.value (release_key map e.key w)) := by
      simp only [hashmap_set, internal_get_bucket_index, hb, hs]
    rw [hset]
    refine ⟨rfl, bucket_at_set_bucket_self map _ _ hlt, ?_, rfl⟩
    show (bucket_at (set_bucket map _ _) _).length = _
    rw [bucket_at_set_bucket_self map _ _ hlt, hb]
    simp
  · intro hno halloc
    rcases hashmap_set_cases map k v w with ⟨pre, e, post, h1, _, h3, _⟩ | ⟨_, h3, _⟩ |
      ⟨_, _, h4⟩
    · exfalso
      have := hno e (by
        show e ∈ bucket_at map (internal_get_bucket_index map k)
        rw [h1]; simp)
      rw [this] at h3
      exact absurd h3 (by decide)
    · exact absurd h3 halloc
    · rw [h4]
      exact ⟨rfl, bucket_at_set_bucket_self map _ _ hlt, rfl⟩
  · intro j hj
    obtain ⟨b, hb⟩ := hashmap_set_fields map k v w
    rcases hashmap_set_cases map k v w with ⟨pre, e, post, _, _, _, h4⟩ | ⟨_, _, h4⟩ |
      ⟨_, _, h4⟩
    · rw [h4]
      exact bucket_at_set_bucket_ne map _ j _ (fun h => hj h.symm)
    · rw [h4]
    · rw [h4]
      exact bucket_at_set_bucket_ne map _ j _ (fun h => hj h.symm)

/-! ## Destruction -/

/-- The function `hashmap_free` on a map whose bucket array has `size` slots: every node is
released in bucket order, then chain order, after that the bucket array, last the record. -/
theorem hashmap_free_eq (map : hashmap W) (w : W) (hlen : map.buckets.length = map.size) :
    hashmap_free map w =
      map.free_data map.addr
        (map.free_data map.buckets_addr (clear_chains map map.buckets w)) := by
  simp only [hashmap_free, hashmap_clear_eq map w hlen]

theorem internal_free_entry_recorded (map : hashmap Recorder) (e : hashmap_entry)
    (w : Recorder) (hfd : map.free_data = rec_free_data)
    (hfk : map.free_key = some rec_free_key) (hfv : map.free_value = some rec_free_value) :
    internal_free_entry (some e) map w =
      { trace := w.trace ++ entry_free_events e, script := w.script } := by
  simp only [internal_free_entry, internal_free_entry_kv, hfd, hfk, hfv, entry_free_events]
  by_cases hk : e.key = NULL <;> by_cases hv : e.value = NULL <;>
    simp [hk, hv, rec_free_data, rec_free_key, rec_free_value]

theorem clear_chain_recorded (map : hashmap Recorder) (hfd : map.free_data = rec_free_data)
    (hfk : map.free_key = some rec_free_key) (hfv : map.free_value = some rec_free_value)
    (chain : List hashmap_entry) :
    ∀ w : Recorder, clear_chain map chain w =
      { trace := w.trace ++ chain.flatMap entry_free_events, script := w.script } := by
  induction chain with
  | nil => intro w; simp [clear_chain]
  | cons e rest ih =>
    intro w
    simp only [clear_chain, internal_free_entry_recorded map e w hfd hfk hfv, ih,
      List.flatMap_cons, List.append_assoc]

theorem clear_chains_recorded (map : hashmap Recorder) (hfd : map.free_data = rec_free_data)
    (hfk : map.free_key = some rec_free_key) (hfv : map.free_value = some rec_free_value)
    (chains : List (List hashmap_entry)) :
    ∀ w : Recorder, clear_chains map chains w =
      { trace := w.trace ++ chains.flatten.flatMap entry_free_events, script := w.script } := by
  induction chains with
  | nil => intro w; simp [clear_chains]
  | cons c rest ih =>
    intro w
    have hstep : clear_chains map (c :: rest) w = clear_chains map rest (clear_chain map c w) :=
      rfl
    rw [hstep, ih, clear_chain_recorded map hfd hfk hfv]
    simp only [List.flatten_cons, List.flatMap_append, List.append_assoc]

theorem freed_pointers_flatMap (entries : List hashmap_entry) :
    (entries.flatMap entry_free_events).filterMap freed_pointer =
      entries.flatMap (fun e => (if e.key ≠ NULL then [e.key] else []) ++
        (if e.value ≠ NULL then [e.value] else []) ++ [e.addr]) := by
  induction entries with
  | nil => rfl
  | cons e rest ih =>
    simp only [List.flatMap_cons, List.filterMap_append, ih]
    congr 1
    by_cases hk : e.key = NULL <;> by_cases hv : e.value = NULL <;>
      simp [entry_free_events, hk, hv, freed_pointer]

/-- Claim C19 as stated fails: the example map is well-formed, has all callbacks present and
holds the value pointer 77 in two entries; `hashmap_free` passes 77 to `free_value` twice. -/
theorem free_releases_shared_value_twice :
    well_formed shared_value_map ∧
    shared_value_map.free_key.isSome = true ∧ shared_value_map.free_value.isSome = true ∧
    (hashmap_free shared_value_map demo_world).trace
      = [Event.free_key 5, Event.free_value 77, Event.free_data 30,
         Event.free_key 2, Event.free_value 77, Event.free_data 50,
         Event.free_data 2000, Event.free_data 1000] ∧
    ((hashmap_free shared_value_map demo_world).trace.filterMap freed_pointer).count 77 = 2 ∧
    ¬ ((hashmap_free shared_value_map demo_world).trace.filterMap freed_pointer).Nodup := by
  refine ⟨⟨by decide, by decide⟩, rfl, rfl, by decide, by decide, by decide⟩

/-- Claim C19, amended: for a well-formed map over the recording world with all callbacks
present, the calls `hashmap_free` makes are, for each live entry in bucket-then-chain order,
`free_key` on its non-null key, `free_value` on its non-null value and `free_data` on its
node, then one `free_data` on the bucket array, then one `free_data` on the record, and no
allocation: the last two calls are those for the bucket array and the record and all calls
before them are the calls for the entries, so no entry is released after the bucket array.
The pointers released are the pointers the map owns, entry by entry; when those are pairwise
distinct no pointer is released twice. -/
theorem free_is_top_down (map : hashmap Recorder) (w : Recorder) (hwf : well_formed map)
    (hfd : map.free_data = rec_free_data) (hfk : map.free_key = some rec_free_key)
    (hfv : map.free_value = some rec_free_value) :
    (hashmap_free map w).trace = w.trace ++ map_free_events map ∧
    (hashmap_free map w).script = w.script ∧
    map_free_events map =
      (live_entries map).flatMap entry_free_events ++
        [Event.free_data map.buckets_addr, Event.free_data map.addr] ∧
    (map_free_events map).filterMap freed_pointer = owned_pointers map ∧
    ((owned_pointers map).Nodup → ((map_free_events map).filterMap freed_pointer).Nodup) ∧
    ((owned_pointers map).Nodup →
      first_index (fun ev => decide (ev = Event.free_data map.buckets_addr))
          (map_free_events map)
        = ((live_entries map).flatMap entry_free_events).length) ∧
    (map_free_events map).take ((live_entries map).flatMap entry_free_events).length
      = (live_entries map).flatMap entry_free_events ∧
    (map_free_events map).drop ((live_entries map).flatMap entry_free_events).length
      = [Event.free_data map.buckets_addr, Event.free_data map.addr] := by
  have htr : hashmap_free map w =
      { trace := w.trace ++ map_free_events map, script := w.script } := by
    rw [hashmap_free_eq map w hwf.2, clear_chains_recorded map hfd hfk hfv, hfd]
    simp [rec_free_data, map_free_events, live_entries]
  have hptr : (map_free_events map).filterMap freed_pointer = owned_pointers map := by
    simp only [map_free_events, owned_pointers, List.filterMap_append,
      freed_pointers_flatMap]
    rfl
  refine ⟨by rw [htr], by rw [htr], rfl, hptr, fun hnd => by rw [hptr]; exact hnd, ?_,
    by simp [map_free_events], by simp [map_free_events]⟩
  intro hnd
  have hnot : ∀ ev ∈ (live_entries map).flatMap entry_free_events,
      (!decide (ev = Event.free_data map.buckets_addr)) = true := by
    intro ev hev
    simp only [Bool.not_eq_true', decide_eq_false_iff_not]
    intro heq
    subst heq
    have hmem : map.buckets_addr ∈ ((live_entries map).flatMap
        entry_free_events).filterMap freed_pointer :=
      List.mem_filterMap.2 ⟨_, hev, rfl⟩
    rw [← hptr, map_free_events, List.filterMap_append] at hnd
    have hdisj := (List.nodup_append.1 hnd).2.2
    exact hdisj hmem (by simp [freed_pointer])
  simp only [first_index, map_free_events]
  rw [List.takeWhile_append_of_pos hnot]
  simp

/-! ## The FNV hash functions -/

theorem range_foldl_getD (round : Nat → Nat → Nat) (l : List Nat) :
    ∀ h, (List.range l.length).foldl (fun h1 i => round h1 (byte_at l i)) h
      = l.foldl (fun h1 b => round h1 (b % 256)) h := by
  induction l with
  | nil => intro h; rfl
  | cons b rest ih =>
    intro h
    rw [List.length_cons, List.range_succ_eq_map, List.foldl_cons, List.foldl_map,
      List.foldl_cons]
    have := ih (round h (b % 256))
    simp only [byte_at, List.getD_cons_succ, List.getD_cons_zero] at this ⊢
    exact this

/-- The `_n` loop over exactly the bytes of the list. -/
theorem hash_n_loop_eq (round : Nat → Nat → Nat) (bs : List Nat) (h : Nat) :
    hash_n_loop round bs bs.length h = bs.foldl (fun h1 b => round h1 (b % 256)) h :=
  range_foldl_getD round bs h

/-- The string loop over bytes without a zero, followed by a zero byte. -/
theorem hash_str_loop_eq (round : Nat → Nat → Nat) (bs : List Nat)
    (hnz : ∀ b ∈ bs, b % 256 ≠ 0) :
    ∀ h, hash_str_loop round (bs ++ [0]) h = bs.foldl (fun h1 b => round h1 (b % 256)) h := by
  induction bs with
  | nil => intro h; simp [hash_str_loop]
  | cons b rest ih =>
    intro h
    have hb : b % 256 ≠ 0 := hnz b (by simp)
    simp only [List.cons_append, hash_str_loop, hb, if_false, List.foldl_cons]
    exact ih (fun x hx => hnz x (by simp [hx])) _

/-- The FNV-1 loop body on a byte is the recurrence step of the claim, when the hash fits
the variable. -/
theorem fnv1_fold_eq (offset prime bits : Nat) (bs : List Nat) (hb : ∀ b ∈ bs, b < 256)
    (hbits : 8 ≤ bits) :
    bs.foldl (fun h1 b => fnv1_round prime bits h1 (b % 256)) offset
      = fnv1_fold offset prime (2 ^ bits) bs := by
  unfold fnv1_fold
  apply List.foldl_ext
  intro h b hmem
  have hlt : b < 256 := hb b hmem
  have hpow : (256 : Nat) ≤ 2 ^ bits := by
    calc (256 : Nat) = 2 ^ 8 := by norm_num
      _ ≤ 2 ^ bits := Nat.pow_le_pow_right (by norm_num) hbits
  have hx : ((h * prime) % 2 ^ bits) ^^^ b < 2 ^ bits :=
    Nat.xor_lt_two_pow (Nat.mod_lt _ (by positivity)) (by omega)
  simp only [fnv1_round, Nat.mod_eq_of_lt hlt, Nat.mod_eq_of_lt hx]

/-- The FNV-1a loop body on a byte is the recurrence step of the claim. -/
theorem fnv1a_fold_eq (offset prime bits : Nat) (bs : List Nat) (hb : ∀ b ∈ bs, b < 256) :
    bs.foldl (fun h1 b => fnv1a_round prime bits h1 (b % 256)) offset
      = fnv1a_fold offset prime (2 ^ bits) bs := by
  unfold fnv1a_fold
  apply List.foldl_ext
  intro h b hmem
  simp only [fnv1a_round, Nat.mod_eq_of_lt (hb b hmem), Nat.mod_mul_mod]

/-- Claim C20: for every sequence `bs` of bytes, `fnv1a_32_hash_n(bs, |bs|)` is the left fold
from `0x811c9dc5` of `h -> ((h xor b) * 0x01000193) mod 2^32`, `fnv1_32_hash_n(bs, |bs|)` is
the left fold of `h -> ((h * 0x01000193) mod 2^32) xor b`, the 64-bit functions are the same
folds with offset `0xcbf29ce484222325`, prime `0x100000001b3` and modulus `2^64`; and when
`bs` has no zero byte, each null-terminated form applied to `bs` followed by a zero byte
returns what the `_n` form returns on `(bs, |bs|)`. -/
theorem fnv_functions (bs : List Nat) (hb : ∀ b ∈ bs, b < 256) :
    fnv1a_32_hash_n bs bs.length = fnv1a_fold 0x811c9dc5 0x01000193 (2 ^ 32) bs ∧
    fnv1_32_hash_n bs bs.length = fnv1_fold 0x811c9dc5 0x01000193 (2 ^ 32) bs ∧
    fnv1a_64_hash_n bs bs.length
      = fnv1a_fold 0xcbf29ce484222325 0x00000100000001b3 (2 ^ 64) bs ∧
    fnv1_64_hash_n bs bs.length
      = fnv1_fold 0xcbf29ce484222325 0x00000100000001b3 (2 ^ 64) bs ∧
    ((∀ b ∈ bs, b ≠ 0) →
      fnv1_32_hash (bs ++ [0]) = fnv1_32_hash_n bs bs.length ∧
      fnv1a_32_hash (bs ++ [0]) = fnv1a_32_hash_n bs bs.length ∧
      fnv1_64_hash (bs ++ [0]) = fnv1_64_hash_n bs bs.length ∧
      fnv1a_64_hash (bs ++ [0]) = fnv1a_64_hash_n bs bs.length) := by
  refine ⟨?_, ?_, ?_, ?_, ?_⟩
  · simp only [fnv1a_32_hash_n, hash_n_loop_eq]
    exact fnv1a_fold_eq offset_32 prime_32 32 bs hb
  · simp only [fnv1_32_hash_n, hash_n_loop_eq]
    exact fnv1_fold_eq offset_32 prime_32 32 bs hb (by norm_num)
  · simp only [fnv1a_64_hash_n, hash_n_loop_eq]
    exact fnv1a_fold_eq offset_64 prime_64 64 bs hb
  · simp only [fnv1_64_hash_n, hash_n_loop_eq]
    exact fnv1_fold_eq offset_64 prime_64 64 bs hb (by norm_num)
  · intro hnz
    have hnz2 : ∀ b ∈ bs, b % 256 ≠ 0 := by
      intro b hmem
      rw [Nat.mod_eq_of_lt (hb b hmem)]
      exact hnz b hmem
    simp only [fnv1_32_hash, fnv1a_32_hash, fnv1_64_hash, fnv1a_64_hash, fnv1_32_hash_n,
      fnv1a_32_hash_n, fnv1_64_hash_n, fnv1a_64_hash_n, hash_n_loop_eq,
      hash_str_loop_eq _ bs hnz2, and_self]

/-! ## The claims on concrete inputs -/

/-- The round trip on the example map, for a key that is present and for one that is not. -/
theorem set_then_get_roundtrip_witness :
    (∃ e, hashmap_get (hashmap_set demo_map 5 55 demo_world).2.1 5 = some e ∧ e.key = 5 ∧
      e.value = 55 ∧ (hashmap_set demo_map 5 55 demo_world).1 = some e ∧
      hashmap_get_value (hashmap_set demo_map 5 55 demo_world).2.1 5 = 55) ∧
    (∃ e, hashmap_get (hashmap_set demo_map 7 77 demo_world).2.1 7 = some e ∧ e.key = 7 ∧
      e.value = 77 ∧ (hashmap_set demo_map 7 77 demo_world).1 = some e ∧
      hashmap_get_value (hashmap_set demo_map 7 77 demo_world).2.1 7 = 77) :=
  ⟨set_then_get_roundtrip demo_map demo_world 5 55 ⟨by decide, by decide⟩
      (fun a => by simp [demo_map, rec_map]) (by decide),
   set_then_get_roundtrip demo_map demo_world 7 77 ⟨by decide, by decide⟩
      (fun a => by simp [demo_map, rec_map]) (by decide)⟩

/-- The example sequence of calls on the freshly created example map. -/
theorem last_write_wins_witness :
    (hashmap_get (set_all demo_fresh demo_sets demo_fresh_world).1 5).map entry_kv
        = last_set demo_compare 5 demo_sets ∧
    last_set demo_compare 5 demo_sets = some (5, 55) ∧
    hashmap_get (set_all demo_fresh demo_sets demo_fresh_world).1 7 = none ∧
    (bucket_at (set_all demo_fresh demo_sets demo_fresh_world).1 1).Pairwise
      (fun e1 e2 => demo_compare e1.key e2.key = false) :=
  have h := last_write_wins 4 demo_hash demo_compare rec_bump rec_free_data
    (some rec_free_key) (some rec_free_value) demo_world_oom demo_fresh_world demo_fresh rfl
    (fun n w => by simp [rec_bump, NULL])
    (fun x => by simp [demo_compare])
    (fun x y hxy => by simp [demo_compare] at hxy ⊢; exact hxy.symm)
    (fun x y z hxy hyz => by simp [demo_compare] at hxy hyz ⊢; exact hxy.trans hyz)
    (fun x y hxy => by simp [demo_compare] at hxy; rw [hxy])
    demo_sets
  ⟨h.1 5, by decide, h.2.1 7 (by decide), h.2.2 1⟩

/-- The removal of the key 5 from the example map. -/
theorem remove_present_key_witness :
    (hashmap_remove demo_map 5 demo_world).1 = true ∧
    hashmap_get (hashmap_remove demo_map 5 demo_world).2.1 5 = none ∧
    (hashmap_remove (hashmap_remove demo_map 5 demo_world).2.1 5
      (hashmap_remove demo_map 5 demo_world).2.2).1 = false :=
  remove_present_key demo_map demo_world 5 ⟨by decide, by decide⟩
    (fun i => by
      have hi : i = 0 ∨ i = 1 ∨ i = 2 ∨ i = 3 ∨ 4 ≤ i := by omega
      rcases hi with rfl | rfl | rfl | rfl | hi
      · simp [chain_unique, bucket_at, demo_map, rec_map]
      · simp [chain_unique, bucket_at, demo_map, rec_map]
      · simp [chain_unique, bucket_at, demo_map, rec_map]
      · simp [chain_unique, bucket_at, demo_map, rec_map]
      · have : bucket_at demo_map i = [] := by
          simp only [bucket_at, List.getD_eq_getElem?_getD]
          rw [List.getElem?_eq_none (by simpa [demo_map, rec_map] using hi)]
          rfl
        rw [this]
        exact List.Pairwise.nil)
    (fun x y hxy => by simp [demo_map, rec_map] at hxy ⊢; exact hxy.symm)
    (fun x y z hxy hyz => by simp [demo_map, rec_map] at hxy hyz ⊢; exact hxy.trans hyz)
    (by decide)

/-- The removal of the absent key 7 from the example map. -/
theorem remove_absent_key_witness :
    hashmap_remove demo_map 7 demo_world = (false, demo_map, demo_world) :=
  remove_absent_key demo_map demo_world 7 (by decide)

/-- The keys 5 and 9 collide in bucket 1 of the example map and do not disturb each other. -/
theorem other_keys_unaffected_witness :
    demo_hash 5 % 4 = demo_hash 9 % 4 ∧
    hashmap_get (hashmap_set demo_map 5 55 demo_world).2.1 9 = hashmap_get demo_map 9 ∧
    hashmap_get_value (hashmap_set demo_map 5 55 demo_world).2.1 9
      = hashmap_get_value demo_map 9 ∧
    hashmap_get (hashmap_remove demo_map 5 demo_world).2.1 9 = hashmap_get demo_map 9 ∧
    hashmap_get_value (hashmap_remove demo_map 5 demo_world).2.1 9
      = hashmap_get_value demo_map 9 :=
  ⟨by decide,
   other_keys_unaffected demo_map demo_world 5 55 9 ⟨by decide, by decide⟩
    (fun x y hxy => by simp [demo_map, rec_map] at hxy ⊢; exact hxy.symm)
    (fun x y z hxy hyz => by simp [demo_map, rec_map] at hxy hyz ⊢; exact hxy.trans hyz)
    (by decide)⟩

/-- A creation without the two optional destructors. -/
theorem create_validation_witness :
    ((∃ w1, hashmap_create 4 (some demo_hash) (some demo_compare) (some rec_bump)
        (some rec_free_data) none none demo_world_oom = create_result.returned none w1) ↔
      ((4 : Nat) = 0 ∨ some demo_hash = none ∨ some demo_compare = none ∨
        some rec_bump = none ∨ some rec_free_data = none)) ∧
    (((4 : Nat) = 0 ∨ some demo_hash = none ∨ some demo_compare = none ∨
        some rec_bump = none ∨ some rec_free_data = none) →
      hashmap_create 4 (some demo_hash) (some demo_compare) (some rec_bump)
        (some rec_free_data) none none demo_world_oom
        = create_result.returned none demo_world_oom) :=
  create_validation 4 (some demo_hash) (some demo_compare) (some rec_bump)
    (some rec_free_data) none none demo_world_oom
    (fun a ha n w => by
      cases ha
      simp [rec_bump, NULL])

/-- A creation whose second allocation fails: the record at 7 is released again. -/
theorem create_second_allocation_fails :
    hashmap_create 4 (some demo_hash) (some demo_compare) (some rec_alloc)
        (some rec_free_data) none none { trace := [], script := [7] }
      = create_result.returned none
          { trace := [Event.alloc 64 7, Event.alloc 32 0, Event.free_data 7], script := [] } :=
  (create_allocation_paths 4 demo_hash demo_compare rec_alloc rec_free_data none none
    { trace := [], script := [7] } (by decide)).2.1 (by decide) (by decide)

/-- The example map with an exhausted allocator: a new key fails, a present key is overwritten. -/
theorem set_alloc_failure_atomic_witness :
    hashmap_set demo_map 7 77 demo_world_oom
        = (none, demo_map, { trace := [Event.alloc 24 0], script := [] }) ∧
    ∃ e0, hashmap_get demo_map 9 = some e0 ∧
      (hashmap_set demo_map 9 99 demo_world_oom).1
        = some { addr := e0.addr, key := 9, value := 99 } :=
  ⟨(set_alloc_failure_atomic demo_map demo_world_oom 7 77).1 (by decide) (by decide),
   match (set_alloc_failure_atomic demo_map demo_world_oom 9 99).2
      (fun i e he => by
        have hi : i = 0 ∨ i = 1 ∨ i = 2 ∨ i = 3 ∨ 4 ≤ i := by omega
        rcases hi with rfl | rfl | rfl | rfl | hi
        · simp [bucket_at, demo_map, rec_map] at he
        · simp [bucket_at, demo_map, rec_map] at he
          rcases he with rfl | rfl <;> rfl
        · simp [bucket_at, demo_map, rec_map] at he
          subst he; rfl
        · simp [bucket_at, demo_map, rec_map] at he
        · exfalso
          simp only [bucket_at, List.getD_eq_getElem?_getD] at he
          rw [List.getElem?_eq_none (by simpa [demo_map, rec_map] using hi)] at he
          simp at he)
      (fun x y hxy => by simp [demo_map, rec_map] at hxy; rw [hxy])
      ⟨[⟨30, 5, 50⟩, ⟨40, 9, 90⟩], by decide, ⟨40, 9, 90⟩, by decide, by decide⟩ with
   | ⟨e0, h1, h2, _, _⟩ => ⟨e0, h1, h2⟩⟩

/-- The example map, cleared, against an empty map of four buckets. -/
theorem clear_leaves_fresh_map_witness :
    (hashmap_clear demo_map demo_world).1.buckets = [[], [], [], []] ∧
    hashmap_get (hashmap_clear demo_map demo_world).1 5 = none ∧
    (run_ops (hashmap_clear demo_map demo_world).1
        [Op.set 5 55, Op.get_value 5, Op.remove 5, Op.get 5] demo_world).1
      = (run_ops (rec_map 4 [[], [], [], []])
        [Op.set 5 55, Op.get_value 5, Op.remove 5, Op.get 5] demo_world).1 :=
  have h := clear_leaves_fresh_map demo_map demo_world ⟨by decide, by decide⟩
  ⟨h.1, h.2.2.2.2.2.2.2.2.2.2.2.1 5,
   ((h.2.2.2.2.2.2.2.2.2.2.2.2 { trace := [], script := [1000, 2000] }
      { trace := [Event.alloc 64 1000, Event.alloc 32 2000], script := [] }
      (rec_map 4 [[], [], [], []]) rfl).2
      [Op.set 5 55, Op.get_value 5, Op.remove 5, Op.get 5] demo_world).1⟩

/-- Clearing an empty map, and clearing the example map twice. -/
theorem clear_idempotent_witness :
    hashmap_clear (rec_map 4 [[], [], [], []]) demo_world
        = (rec_map 4 [[], [], [], []], demo_world) ∧
    hashmap_clear (hashmap_clear demo_map demo_world).1 (hashmap_clear demo_map demo_world).2
        = hashmap_clear demo_map demo_world :=
  ⟨(clear_idempotent (rec_map 4 [[], [], [], []]) demo_world).1 (by unfold all_empty; decide),
   (clear_idempotent demo_map demo_world).2 ⟨by decide, by decide⟩⟩

/-- The iteration over the example map with a callback that only records its calls. -/
theorem loop_visits_every_entry_witness :
    hashmap_loop demo_loop_map (recording_callback (fun _ _ => false) 0) []
      = some (demo_loop_map,
          [LoopEvent.visit 5 50, LoopEvent.visit 9 90, LoopEvent.visit 2 20]) :=
  (loop_visits_every_entry demo_loop_map (recording_callback (fun _ _ => false) 0) []
    ⟨by decide, by decide⟩ (by unfold nodes_distinct; decide)
    (fun k v w1 => by simp [recording_callback])).trans rfl

/-- The iteration over the example map with a callback that stops on its second call: the
entry of bucket 2 is not visited and is still there. -/
theorem loop_stops_after_nth_witness :
    hashmap_loop demo_loop_map (recording_callback (fun _ _ => false) 2) []
      = some (demo_loop_map, [LoopEvent.visit 5 50, LoopEvent.visit 9 90]) ∧
    visit_count [LoopEvent.visit 5 50, LoopEvent.visit 9 90] = min 2 3 :=
  have h := loop_stops_after_nth demo_loop_map (recording_callback (fun _ _ => false) 2) []
    ⟨by decide, by decide⟩ (by unfold nodes_distinct; decide) visit_count 2 (by decide)
    (by decide)
    (fun k v w1 => by simp [recording_callback, visit_count, List.filter_append])
    (fun k v w1 => by simp [recording_callback])
    (fun k v w1 => by simp [recording_callback])
  ⟨h.1.trans rfl, h.2⟩

/-- The lookups of the keys 9 (second in its chain) and 7 (absent) in the example map. -/
theorem get_value_agrees_with_get_witness :
    hashmap_get_value demo_map 9 = (⟨40, 9, 90⟩ : hashmap_entry).value ∧
    hashmap_get_value demo_map 7 = NULL :=
  ⟨(get_value_agrees_with_get demo_map 9).1 ⟨40, 9, 90⟩ (by decide),
   (get_value_agrees_with_get demo_map 7).2.1 (by decide)⟩

/-- The invariants on the freshly created example map and after one call of each of the
three operations on it. -/
theorem invariants_preserved_witness :
    map_invariant demo_fresh 4 ∧
    map_invariant (hashmap_set demo_fresh 5 50 demo_fresh_world).2.1 4 ∧
    map_invariant (hashmap_remove demo_fresh 5 demo_fresh_world).2.1 4 ∧
    map_invariant (hashmap_clear demo_fresh demo_fresh_world).1 4 :=
  have h0 : map_invariant demo_fresh 4 :=
    (invariants_preserved 4).1 demo_hash demo_compare rec_bump rec_free_data
      (some rec_free_key) (some rec_free_value) demo_world_oom demo_fresh_world demo_fresh rfl
  have hl : callbacks_lawful demo_fresh :=
    ⟨fun x => by simp [demo_fresh, demo_compare],
     fun x y hxy => by simp [demo_fresh, demo_compare] at hxy ⊢; exact hxy.symm,
     fun x y z hxy hyz => by simp [demo_fresh, demo_compare] at hxy hyz ⊢; exact hxy.trans hyz,
     fun x y hxy => by simp [demo_fresh, demo_compare] at hxy; rw [hxy]⟩
  have h := (invariants_preserved 4).2 demo_fresh hl h0 5 50 demo_fresh_world
  ⟨h0, h.1, h.2.1, h.2.2⟩

/-- The overwrite of the key 5 in the example map: the node 30 stays first in bucket 1, and
the old key and value go to the destructors. -/
theorem set_chain_shape_witness :
    (hashmap_set demo_map 5 55 demo_world).1 = some { addr := 30, key := 5, value := 55 } ∧
    bucket_at (hashmap_set demo_map 5 55 demo_world).2.1 1
      = [{ addr := 30, key := 5, value := 55 }, { addr := 40, key := 9, value := 90 }] ∧
    (bucket_at (hashmap_set demo_map 5 55 demo_world).2.1 1).length
      = (bucket_at demo_map 1).length ∧
    (hashmap_set demo_map 5 55 demo_world).2.2
      = rec_free_value 50 (rec_free_key 5 demo_world) :=
  (set_chain_shape demo_map 5 55 demo_world ⟨by decide, by decide⟩).1
    [] ⟨30, 5, 50⟩ [⟨40, 9, 90⟩] rfl (by simp) rfl

/-- The destruction of a map whose pointers are pairwise distinct. -/
theorem free_is_top_down_witness :
    (hashmap_free owned_demo_map demo_world).trace
      = [Event.free_key 5, Event.free_value 51, Event.free_data 30,
         Event.free_key 9, Event.free_value 91, Event.free_data 40,
         Event.free_key 2, Event.free_value 21, Event.free_data 50,
         Event.free_data 2000, Event.free_data 1000] ∧
    ((map_free_events owned_demo_map).filterMap freed_pointer).Nodup ∧
    first_index (fun ev => decide (ev = Event.free_data 2000))
      (map_free_events owned_demo_map) = 9 :=
  have h := free_is_top_down owned_demo_map demo_world ⟨by decide, by decide⟩ rfl rfl rfl
  ⟨h.1.trans (by decide), h.2.2.2.2.1 (by decide),
   (h.2.2.2.2.2.1 (by decide)).trans (by decide)⟩

/-- The hashes of "Alice", and the published FNV values of the string "a". -/
theorem fnv_functions_witness :
    fnv1a_32_hash_n alice_bytes alice_bytes.length
      = fnv1a_fold 0x811c9dc5 0x01000193 (2 ^ 32) alice_bytes ∧
    fnv1a_32_hash (alice_bytes ++ [0]) = fnv1a_32_hash_n alice_bytes alice_bytes.length ∧
    fnv1_64_hash (alice_bytes ++ [0]) = fnv1_64_hash_n alice_bytes alice_bytes.length ∧
    fnv1a_32_hash [97, 0] = 0xe40c292c ∧ fnv1_32_hash [97, 0] = 0x050c5d7e ∧
    fnv1a_64_hash [97, 0] = 0xaf63dc4c8601ec8c ∧ fnv1_64_hash [97, 0] = 0xaf63bd4c8601b7be :=
  have h := fnv_functions alice_bytes (by decide)
  have hs := h.2.2.2.2 (by decide)
  ⟨h.1, hs.2.1, hs.2.2.1, by decide, by decide, by decide, by decide⟩

end Hashmap
